import Mathlib

/-!
# configMerger: tag-driven binding and the merge engine

A shallow embedding of `env.go` (`EnvSource.Load`, `EnvSource.processEnvTags`,
`EnvSource.Watch`) and `merger.go` (`Merger.AddSource`, `Merger.Run`,
`Merger.RunWatch`, `Merger.GetFinalConfig`).

Modelling conventions
* A Go struct value together with its reflected type is a `Struct`: the
  sequence of its fields, each carrying its name, whether it is exported, its
  tag and either a leaf value or a nested struct.  Mutation through
  `reflect.Value` is explicit state passing: a function returns the struct as
  it is left behind.
* `reflect` refuses to set an unexported field, and any field reached through
  an unexported struct-typed field that is not embedded: the `Set...` calls
  panic.  A panic is the result `panic`; the struct returned with it is the
  memory as the panic leaves it.
* `int` is the 64-bit Go `int`; machine arithmetic inside `strconv` is written
  with explicit `% 2 ^ 64`.
* The process environment is a function from names to values.
* A `Source` is its `Load`, a function on the shared target that returns; what
  it returns is `nil`, a `*multierror.Error`, or an error of another type,
  since `multierror.Append` treats the two differently.
* `setDefaults`, `checkRequiredFields` and `StringInSlice` are declared outside
  the two source files: `Run` takes the first two as parameters, and where a
  concrete target is run they are the definitions written from the spec.
* Of `RunWatch`, the statements it executes itself are modelled in their order;
  the watch session after the stop request is a small transition system.
-/

set_option autoImplicit false

namespace ConfigMerger

/-! ## Data model -/

/-- A struct tag, as a sequence of `key:"value"` pairs. -/
structure Tag where
  entries : List (String × String)
  deriving DecidableEq, Repr

/-- The call `reflect.StructTag.Get`: the value stored under `key`, or the empty string
when the tag has no such key. -/
def Tag.Get (t : Tag) (key : String) : String :=
  match t.entries.lookup key with
  | some v => v
  | none => ""

/-- A non-struct field value, by `reflect.Kind`.  `other` stands for a value of any kind
besides `String`, `Int` and `Bool` (floats, pointers, slices, maps, sized ints ...). -/
inductive Leaf where
  | str (s : String)
  | int (i : Int)
  | bool (b : Bool)
  | other (v : Nat)
  deriving DecidableEq, Repr

/-- A struct value with its type information: the fields in declaration order.
`leaf` is a field of non-struct kind, `sub` a field whose type is itself a struct;
`exported` says whether the field is exported (`StructField.PkgPath` is empty), and
`embedded` whether a struct-typed field is an embedded one (`StructField.Anonymous`). -/
inductive Struct where
  | nil
  | leaf (name : String) (exported : Bool) (tag : Tag) (value : Leaf) (rest : Struct)
  | sub (name : String) (exported : Bool) (embedded : Bool) (tag : Tag) (inner : Struct)
      (rest : Struct)
  deriving DecidableEq, Repr

/-- The two sentinel errors of `strconv`. -/
inductive NumErrKind where
  | ErrSyntax
  | ErrRange
  deriving DecidableEq, Repr

/-- The record `strconv.NumError`. -/
structure NumError where
  Func : String
  Num : String
  Err : NumErrKind
  deriving DecidableEq, Repr

/-- What a call ends with when it does not end with `nil`: a conversion failure of
`strconv`, the required-field violation reported by validation, or a run-time panic.
A panic is not a returned error: unless recovered it ends the caller as well. -/
inductive Err where
  | num (e : NumError)
  | requiredMissing (field : String)
  | panic (msg : String)
  deriving DecidableEq, Repr

/-- The process environment. -/
abbrev Env := String → String

/-- The call `os.Getenv`: the empty name is never set. -/
def Getenv (env : Env) (key : String) : String :=
  if key = "" then "" else env key

/-! ## strconv -/

/-- The constant `cutoff` of `ParseUint` for base 10: `maxUint64/10 + 1`. -/
def cutoff10 : Nat := (2 ^ 64 - 1) / 10 + 1

/-- The constant `maxVal` of `ParseUint` for bit size 64. -/
def maxVal64 : Nat := 2 ^ 64 - 1

/-- The digit loop of `strconv.ParseUint(s, 10, 64)`.  A byte outside `'0'..'9'` is a
syntax error (a letter maps to a digit `≥ 10 = base`, every other byte hits the
`default` branch); `n` is the accumulator. -/
def ParseUint.loop (s0 : String) : List Char → Nat → Nat × Option NumError
  | [], n => (n, none)
  | c :: cs, n =>
    if '0'.toNat ≤ c.toNat ∧ c.toNat ≤ '9'.toNat then
      let d := c.toNat - '0'.toNat
      if n ≥ cutoff10 then
        (maxVal64, some ⟨"ParseUint", s0, .ErrRange⟩)
      else
        let m := (n * 10) % 2 ^ 64
        let n1 := (m + d) % 2 ^ 64
        if n1 < m ∨ n1 > maxVal64 then
          (maxVal64, some ⟨"ParseUint", s0, .ErrRange⟩)
        else
          ParseUint.loop s0 cs n1
    else
      (0, some ⟨"ParseUint", s0, .ErrSyntax⟩)

/-- The call `strconv.ParseUint(s, 10, 64)`: value and error, as Go returns them. -/
def ParseUint (s : String) : Nat × Option NumError :=
  if s = "" then (0, some ⟨"ParseUint", s, .ErrSyntax⟩)
  else ParseUint.loop s s.data 0

/-- The conversion `int64(un)` of a `uint64`. -/
def toInt64 (un : Nat) : Int :=
  if un % 2 ^ 64 < 2 ^ 63 then (un % 2 ^ 64 : Nat) else ((un % 2 ^ 64 : Nat) : Int) - 2 ^ 64

/-- Negation of an `int64`, wrapping. -/
def negInt64 (n : Int) : Int :=
  if -n = 2 ^ 63 then -(2 ^ 63) else -n

/-- The call `strconv.ParseInt(s, 10, 64)`. -/
def ParseInt (s : String) : Except NumError Int :=
  match s.data with
  | [] => .error ⟨"ParseInt", s, .ErrSyntax⟩
  | c :: cs =>
    let neg := c = '-'
    let body : String := if c = '+' ∨ c = '-' then ⟨cs⟩ else s
    match ParseUint body with
    | (_, some ⟨_, _, .ErrSyntax⟩) => .error ⟨"ParseInt", s, .ErrSyntax⟩
    | (un, _) =>
      let cutoff : Nat := 2 ^ 63
      if ¬ neg ∧ un ≥ cutoff then .error ⟨"ParseInt", s, .ErrRange⟩
      else if neg ∧ un > cutoff then .error ⟨"ParseInt", s, .ErrRange⟩
      else
        let n := toInt64 un
        .ok (if neg then negInt64 n else n)

/-- The call `strconv.ParseBool`. -/
def ParseBool (s : String) : Except NumError Bool :=
  if s = "1" ∨ s = "t" ∨ s = "T" ∨ s = "TRUE" ∨ s = "true" ∨ s = "True" then .ok true
  else if s = "0" ∨ s = "f" ∨ s = "F" ∨ s = "FALSE" ∨ s = "false" ∨ s = "False" then .ok false
  else .error ⟨"ParseBool", s, .ErrSyntax⟩

/-! ## env.go -/

/-- Modelled from the spec: `StringInSlice` is called by `processEnvTags` but declared
outside the two source files; the spec describes its use as matching the annotation
against "the authorized-variable set", so it is list membership. -/
def StringInSlice (a : String) (list : List String) : Bool :=
  list.contains a

/-- The record `EnvSource`.  The `TargetStruct` pointer is the shared target, which the
operations below receive and return explicitly; `WatchHandler` is never called. -/
structure EnvSource where
  Variables : List String
  deriving DecidableEq, Repr

/-- The panic of `reflect.Value.SetString`, `SetInt` or `SetBool` on a value obtained
through an unexported field. -/
def setPanic (method : String) : Err :=
  .panic ("reflect: reflect.Value." ++ method ++ " using value obtained using unexported field")

/-- The method `EnvSource.processEnvTags`: the struct as the traversal leaves it, and how
the traversal ends (`nil`, the returned error, or a panic).  `ro` says whether the value
`v` was reached through an unexported field that is not embedded (the sticky read-only
flag of `reflect.Value`, which `v.Field(i)` passes on); the `Set...` calls panic on a
field that is unexported itself or was reached that way. -/
def EnvSource.processEnvTags (e : EnvSource) (env : Env) (ro : Bool) :
    Struct → Struct × Option Err
  | .nil => (.nil, none)
  | .sub name exported embedded tag inner rest =>
    match e.processEnvTags env (ro || (!exported && !embedded)) inner with
    | (inner1, some err) => (.sub name exported embedded tag inner1 rest, some err)
    | (inner1, none) =>
      let r := e.processEnvTags env ro rest
      (.sub name exported embedded tag inner1 r.1, r.2)
  | .leaf name exported tag value rest =>
    let column := tag.Get "env"
    if column ≠ "" ∧ StringInSlice column e.Variables = true then
      let v := Getenv env column
      match value with
      | .str _ =>
        if ro || !exported then (.leaf name exported tag value rest, some (setPanic "SetString"))
        else
          let r := e.processEnvTags env ro rest
          (.leaf name exported tag (.str v) r.1, r.2)
      | .int _ =>
        match ParseInt v with
        | .error err => (.leaf name exported tag value rest, some (.num err))
        | .ok i =>
          if ro || !exported then (.leaf name exported tag value rest, some (setPanic "SetInt"))
          else
            let r := e.processEnvTags env ro rest
            (.leaf name exported tag (.int i) r.1, r.2)
      | .bool _ =>
        match ParseBool v with
        | .error err => (.leaf name exported tag value rest, some (.num err))
        | .ok b =>
          if ro || !exported then (.leaf name exported tag value rest, some (setPanic "SetBool"))
          else
            let r := e.processEnvTags env ro rest
            (.leaf name exported tag (.bool b) r.1, r.2)
      | .other _ =>
        let r := e.processEnvTags env ro rest
        (.leaf name exported tag value r.1, r.2)
    else
      let r := e.processEnvTags env ro rest
      (.leaf name exported tag value r.1, r.2)

/-- The method `EnvSource.Load`: runs `processEnvTags` on the target (the element of the
pointer, not read-only), drops the error it returns, and returns `nil`.  A panic of
`processEnvTags` is not dropped: it passes through `Load`. -/
def EnvSource.Load (e : EnvSource) (env : Env) (target : Struct) : Struct × Option Err :=
  match e.processEnvTags env false target with
  | (t, some (.panic msg)) => (t, some (.panic msg))
  | (t, _) => (t, none)

/-! ## Leaves in traversal order -/

/-- A non-struct field as the traversal meets it: the names of the enclosing fields down to
its own, its tag and its value.  The length of `path` is the nesting depth. -/
structure FieldAt where
  path : List String
  tag : Tag
  value : Leaf
  deriving DecidableEq, Repr

/-- Places a leaf of a nested struct under the name of the field that holds the struct. -/
def FieldAt.under (name : String) (f : FieldAt) : FieldAt :=
  { f with path := name :: f.path }

/-- The non-struct fields of a struct at every depth, in the order in which
`processEnvTags` meets them (declaration order, nested structs entered in place). -/
def Struct.leaves : Struct → List FieldAt
  | .nil => []
  | .leaf name _ tag value rest => ⟨[name], tag, value⟩ :: rest.leaves
  | .sub name _ _ _ inner rest => inner.leaves.map (FieldAt.under name) ++ rest.leaves

/-- For each leaf in traversal order, whether `reflect` can set it: the field is
exported, and every struct-typed field on the way to it is exported or embedded.  `ro`
is the sticky read-only flag of the struct itself. -/
def Struct.settable : Bool → Struct → List Bool
  | _, .nil => []
  | ro, .leaf _ exported _ _ rest => (!(ro || !exported)) :: Struct.settable ro rest
  | ro, .sub _ exported embedded _ inner rest =>
    Struct.settable (ro || (!exported && !embedded)) inner ++ Struct.settable ro rest

/-- The leaves in traversal order, each with whether it can be set. -/
def Struct.cells : Bool → Struct → List (FieldAt × Bool)
  | _, .nil => []
  | ro, .leaf name exported tag value rest =>
    (⟨[name], tag, value⟩, !(ro || !exported)) :: Struct.cells ro rest
  | ro, .sub name exported embedded _ inner rest =>
    (Struct.cells (ro || (!exported && !embedded)) inner).map (fun c => (c.1.under name, c.2))
      ++ Struct.cells ro rest

/-- The kinds the binder writes: string, int and bool. -/
def Leaf.isBindable : Leaf → Bool
  | .other _ => false
  | _ => true

/-- The body of the loop of `processEnvTags` for one non-struct field, on its own: the
value the field is given, or what ends the traversal.  `canSet` says whether the field
can be set. -/
def EnvSource.bindLeaf (e : EnvSource) (env : Env) (canSet : Bool) (tag : Tag)
    (value : Leaf) : Except Err Leaf :=
  let column := tag.Get "env"
  if column ≠ "" ∧ StringInSlice column e.Variables = true then
    let v := Getenv env column
    match value with
    | .str _ => if canSet then .ok (.str v) else .error (setPanic "SetString")
    | .int _ =>
      match ParseInt v with
      | .error err => .error (.num err)
      | .ok i => if canSet then .ok (.int i) else .error (setPanic "SetInt")
    | .bool _ =>
      match ParseBool v with
      | .error err => .error (.num err)
      | .ok b => if canSet then .ok (.bool b) else .error (setPanic "SetBool")
    | .other _ => .ok value
  else .ok value

/-- The traversal seen on the list of leaves: bind one after the other, stop at the first
error or panic and leave the remaining leaves as they are. -/
def EnvSource.bindLeaves (e : EnvSource) (env : Env) :
    List (FieldAt × Bool) → List FieldAt × Option Err
  | [] => ([], none)
  | c :: rest =>
    match e.bindLeaf env c.2 c.1.tag c.1.value with
    | .error err => (c.1 :: rest.map Prod.fst, some err)
    | .ok v =>
      let r := e.bindLeaves env rest
      ({ c.1 with value := v } :: r.1, r.2)

/-- The conversion of a field's environment value to the field's kind, in the words of
the binder's contract: a string is taken verbatim, an integer is parsed as a base-10
signed integer, a boolean is parsed from the boolean literals, a field of any other
kind keeps its value; `none` when the value does not parse. -/
def conversion (env : Env) (f : FieldAt) : Option Leaf :=
  let v := Getenv env (f.tag.Get "env")
  match f.value with
  | .str _ => some (.str v)
  | .int _ =>
    match ParseInt v with
    | .ok n => some (.int n)
    | .error _ => none
  | .bool _ =>
    match ParseBool v with
    | .ok b => some (.bool b)
    | .error _ => none
  | .other o => some (.other o)

/-! ## Base-10 rendering of an integer -/

/-- The character of a decimal digit. -/
def digitChar (d : Nat) : Char := Char.ofNat (48 + d)

/-- Digits of `n`, most significant first, put in front of `acc`. -/
def decimalDigits.go : Nat → Nat → List Char → List Char
  | 0, _, acc => acc
  | fuel + 1, n, acc =>
    if n / 10 = 0 then digitChar (n % 10) :: acc
    else decimalDigits.go fuel (n / 10) (digitChar (n % 10) :: acc)

/-- The decimal digits of a natural number. -/
def decimalDigits (n : Nat) : List Char := decimalDigits.go (n + 1) n []

/-- The base-10 string of an integer: a minus sign for a negative number, then the
digits of its absolute value without leading zeros. -/
def decimal (n : Int) : String :=
  if n < 0 then ⟨'-' :: decimalDigits n.natAbs⟩ else ⟨decimalDigits n.toNat⟩

/-! ## merger.go -/

/-- A non-`nil` error as `multierror.Append` tells it apart by its dynamic type: a
`*multierror.Error`, given by the errors its `Errors` field holds (none for an empty
one or for a nil pointer of that type), or an error of any other type. -/
inductive LoadError (ε : Type) where
  | plain (err : ε)
  | multi (errors : List ε)
  deriving DecidableEq, Repr

/-- What `multierror.Append` adds to the aggregate for one error: the error itself, or,
for a `*multierror.Error`, the errors it holds. -/
def LoadError.entries {ε : Type} : LoadError ε → List ε
  | .plain err => [err]
  | .multi errors => errors

/-- The interface `Source`, as far as the load pass uses it: `Load` acts on the shared
target and returns `nil` or an error.  (`SetTargetStruct` hands the source the pointer
to the shared target; here the target is passed to `Load`.) -/
structure Source (σ ε : Type) where
  Load : σ → σ × Option (LoadError ε)

/-- The record `Merger`: the registered sources and the target they share. -/
structure Merger (σ ε : Type) where
  Sources : List (Source σ ε)
  TargetConfigStruct : σ

/-- The constructor `NewMerger`, for a target that is a pointer to a struct accepted by
`validateStruct` (the other inputs make it panic). -/
def NewMerger {σ ε : Type} (s : σ) : Merger σ ε :=
  { Sources := [], TargetConfigStruct := s }

/-- The method `Merger.AddSource`. -/
def Merger.AddSource {σ ε : Type} (m : Merger σ ε) (src : Source σ ε) : Merger σ ε :=
  { m with Sources := m.Sources ++ [src] }

/-- Registering several sources one after the other with `AddSource`. -/
def Merger.AddSources {σ ε : Type} (m : Merger σ ε) (srcs : List (Source σ ε)) :
    Merger σ ε :=
  srcs.foldl Merger.AddSource m

/-- The merger `m` after registering `A`, then the sources `mid`, then `B`, then the
sources `post`. -/
def registered {σ ε : Type} (m : Merger σ ε) (A : Source σ ε) (mid : List (Source σ ε))
    (B : Source σ ε) (post : List (Source σ ε)) : Merger σ ε :=
  (((m.AddSource A).AddSources mid).AddSource B).AddSources post

/-- The call `multierror.Append(errAll, err)` with a non-`nil` `err`: `errAll` is the
nil pointer or holds the errors collected so far; the result is never the nil pointer.
A `*multierror.Error` is flattened: its errors are appended, not the error itself. -/
def multierrorAppend {ε : Type} (errAll : Option (List ε)) (err : LoadError ε) :
    Option (List ε) :=
  match errAll with
  | none => some err.entries
  | some es => some (es ++ err.entries)

/-- What `Run` returns when it is not `nil`: the aggregate of the load pass, or the
error of `setDefaults` or `checkRequiredFields`. -/
inductive RunError (ε : Type) where
  | aggregate (errors : List ε)
  | plain (err : ε)
  deriving DecidableEq, Repr

/-- The `for _, s := range m.Sources` loop of `Run`: the target and `errAll` after it. -/
def Run.loop {σ ε : Type} : List (Source σ ε) → σ → Option (List ε) → σ × Option (List ε)
  | [], t, errAll => (t, errAll)
  | s :: rest, t, errAll =>
    match s.Load t with
    | (t1, some err) => Run.loop rest t1 (multierrorAppend errAll err)
    | (t1, none) => Run.loop rest t1 errAll

/-- What follows the load pass in `Run` when the aggregate is empty: `setDefaults`,
then `checkRequiredFields`. -/
def Run.validate {σ ε : Type} (setDefaults : σ → σ × Option ε)
    (checkRequiredFields : σ → Option ε) (t : σ) : σ × Option (RunError ε) :=
  match setDefaults t with
  | (t1, some err) => (t1, some (.plain err))
  | (t1, none) =>
    match checkRequiredFields t1 with
    | some err => (t1, some (.plain err))
    | none => (t1, none)

/-- The method `Merger.Run`.  `setDefaults` and `checkRequiredFields` are methods of
`Merger` declared outside the two source files; they are parameters here. -/
def Merger.Run {σ ε : Type} (m : Merger σ ε) (setDefaults : σ → σ × Option ε)
    (checkRequiredFields : σ → Option ε) : Merger σ ε × Option (RunError ε) :=
  match Run.loop m.Sources m.TargetConfigStruct none with
  | (t, some errors) =>
    if errors.length > 0 then ({ m with TargetConfigStruct := t }, some (.aggregate errors))
    else
      let r := Run.validate setDefaults checkRequiredFields t
      ({ m with TargetConfigStruct := r.1 }, r.2)
  | (t, none) =>
    let r := Run.validate setDefaults checkRequiredFields t
    ({ m with TargetConfigStruct := r.1 }, r.2)

/-- The target after the load pass, said directly: every `Load` applied once, in
registration order, each to the target the previous one left. -/
def loadAll {σ ε : Type} (srcs : List (Source σ ε)) (t : σ) : σ :=
  srcs.foldl (fun t s => (s.Load t).1) t

/-- The non-`nil` results of the `Load` calls of the load pass, one per failing source,
in registration order. -/
def loadResults {σ ε : Type} : List (Source σ ε) → σ → List (LoadError ε)
  | [], _ => []
  | s :: rest, t =>
    match (s.Load t).2 with
    | some err => err :: loadResults rest (s.Load t).1
    | none => loadResults rest (s.Load t).1

/-- The errors of the load pass as the aggregate holds them, said directly: for every
failing source in registration order, the error its `Load` returned or, when that is a
`*multierror.Error`, the errors it holds. -/
def loadErrors {σ ε : Type} (srcs : List (Source σ ε)) (t : σ) : List ε :=
  (loadResults srcs t).flatMap LoadError.entries

/-- A source that, besides loading, appends its registration index to a call log kept
next to the target. -/
def Source.logged {σ ε : Type} (i : Nat) (s : Source σ ε) : Source (σ × List Nat) ε :=
  { Load := fun tl => (((s.Load tl.1).1, tl.2 ++ [i]), (s.Load tl.1).2) }

/-- The sources with call logging, numbered from `i` in registration order. -/
def loggedFrom {σ ε : Type} : Nat → List (Source σ ε) → List (Source (σ × List Nat) ε)
  | _, [] => []
  | i, s :: rest => s.logged i :: loggedFrom (i + 1) rest

/-- An `EnvSource` reading the environment `env`, as a `Source`.  `Load` returns `nil`
whenever it returns; a panic inside `Load`, which in the code ends `Run` as well, is
handed on as the result `panic`. -/
def EnvSource.toSource (e : EnvSource) (env : Env) : Source Struct Err :=
  { Load := fun t => ((e.Load env t).1, (e.Load env t).2.map LoadError.plain) }

/-! ## Defaults, required fields and the final snapshot -/

/-- The zero value of a kind: the empty string, `0`, `false`; for a value of another
kind, the payload `0` stands for its zero value. -/
def Leaf.isZero : Leaf → Bool
  | .str s => s = ""
  | .int i => i = 0
  | .bool b => !b
  | .other v => v = 0

/-- Modelled from the spec: `setDefaults` is a method of `Merger` declared outside the
two source files.  The spec: "apply default values to every field whose bound value is
still at its zero/unset state and which carries a default annotation".  The literal of
the `default` tag is converted to the field's kind the way the binder converts an
environment value; a literal that does not convert is returned as the error, and a
field of a kind the binder does not handle is left alone. -/
def setDefaults : Struct → Struct × Option Err
  | .nil => (.nil, none)
  | .sub name exported embedded tag inner rest =>
    match setDefaults inner with
    | (inner1, some err) => (.sub name exported embedded tag inner1 rest, some err)
    | (inner1, none) =>
      let r := setDefaults rest
      (.sub name exported embedded tag inner1 r.1, r.2)
  | .leaf name exported tag value rest =>
    let lit := tag.Get "default"
    if lit ≠ "" ∧ value.isZero = true then
      match value with
      | .str _ =>
        let r := setDefaults rest
        (.leaf name exported tag (.str lit) r.1, r.2)
      | .int _ =>
        match ParseInt lit with
        | .error err => (.leaf name exported tag value rest, some (.num err))
        | .ok i =>
          let r := setDefaults rest
          (.leaf name exported tag (.int i) r.1, r.2)
      | .bool _ =>
        match ParseBool lit with
        | .error err => (.leaf name exported tag value rest, some (.num err))
        | .ok b =>
          let r := setDefaults rest
          (.leaf name exported tag (.bool b) r.1, r.2)
      | .other _ =>
        let r := setDefaults rest
        (.leaf name exported tag value r.1, r.2)
    else
      let r := setDefaults rest
      (.leaf name exported tag value r.1, r.2)

/-- Modelled from the spec: `checkRequiredFields` is a method of `Merger` declared
outside the two source files.  The spec: "check every field carrying a required
annotation is non-zero/non-empty; a violation yields a distinct error kind identifying
the missing field".  The first violation in declaration order is reported. -/
def checkRequiredFields : Struct → Option Err
  | .nil => none
  | .sub _ _ _ _ inner rest =>
    match checkRequiredFields inner with
    | some err => some err
    | none => checkRequiredFields rest
  | .leaf name _ tag value rest =>
    if tag.Get "required" ≠ "" ∧ value.isZero = true then some (.requiredMissing name)
    else checkRequiredFields rest

/-- The result of `structs.Map`: keys with their values; a nested struct is a nested
map, or the struct value itself when it has no exported field. -/
inductive ConfigMap where
  | nil
  | value (key : String) (v : Leaf) (rest : ConfigMap)
  | nested (key : String) (inner : ConfigMap) (rest : ConfigMap)
  | structValue (key : String) (s : Struct) (rest : ConfigMap)
  deriving DecidableEq, Repr

/-- What a key of a `ConfigMap` maps to. -/
inductive ConfigEntry where
  | value (v : Leaf)
  | nested (m : ConfigMap)
  | structValue (s : Struct)
  deriving DecidableEq, Repr

/-- Indexing a `ConfigMap` by key. -/
def ConfigMap.lookup (key : String) : ConfigMap → Option ConfigEntry
  | .nil => none
  | .value k v rest => if k = key then some (.value v) else rest.lookup key
  | .nested k inner rest => if k = key then some (.nested inner) else rest.lookup key
  | .structValue k s rest => if k = key then some (.structValue s) else rest.lookup key

/-- The call `structs.Map` (github.com/fatih/structs) on a struct whose fields carry no
`structs` tag: every exported field under its own name (unexported fields are left
out); a struct-typed field as the map of its fields, or, when that map is empty, as the
struct value itself. -/
def structsMap : Struct → ConfigMap
  | .nil => .nil
  | .leaf name exported _ value rest =>
    if exported then .value name value (structsMap rest) else structsMap rest
  | .sub name exported _ _ inner rest =>
    if exported then
      match structsMap inner with
      | .nil => .structValue name inner (structsMap rest)
      | m => .nested name m (structsMap rest)
    else structsMap rest

/-- The method `Merger.GetFinalConfig`. -/
def Merger.GetFinalConfig (m : Merger Struct Err) : ConfigMap :=
  structsMap m.TargetConfigStruct

/-! ## Fields by name, and targets that bind cleanly -/

/-- The first top-level field with the given name, when it is of non-struct kind:
whether it is exported, its tag and its value. -/
def Struct.field? (name : String) : Struct → Option (Bool × Tag × Leaf)
  | .nil => none
  | .leaf n exported tag value rest =>
    if n = name then some (exported, tag, value) else rest.field? name
  | .sub n _ _ _ _ rest => if n = name then none else rest.field? name

/-- Every field the source is authorized for can be bound: its variable converts to
the field's kind and, for a string, int or bool, the field can be set.  `ro` is the
read-only flag of the struct itself. -/
def EnvSource.clean (e : EnvSource) (env : Env) : Bool → Struct → Bool
  | _, .nil => true
  | ro, .sub _ exported embedded _ inner rest =>
    e.clean env (ro || (!exported && !embedded)) inner && e.clean env ro rest
  | ro, .leaf name exported tag value rest =>
    (if tag.Get "env" ≠ "" ∧ StringInSlice (tag.Get "env") e.Variables = true then
      (conversion env ⟨[name], tag, value⟩).isSome
        && (!value.isBindable || !(ro || !exported))
    else true) && e.clean env ro rest

/-- The struct with every field the source is authorized for holding the conversion of
its variable's value (a field whose value does not convert is left as it is). -/
def EnvSource.bound (e : EnvSource) (env : Env) : Struct → Struct
  | .nil => .nil
  | .sub name exported embedded tag inner rest =>
    .sub name exported embedded tag (e.bound env inner) (e.bound env rest)
  | .leaf name exported tag value rest =>
    .leaf name exported tag
      (if tag.Get "env" ≠ "" ∧ StringInSlice (tag.Get "env") e.Variables = true then
        (conversion env ⟨[name], tag, value⟩).getD value
      else value)
      (e.bound env rest)

/-- No field, at any depth, carries a `default`, `required` or `structs` tag. -/
def Struct.plainTags : Struct → Bool
  | .nil => true
  | .sub _ _ _ tag inner rest =>
    tag.Get "default" = "" && tag.Get "required" = "" && tag.Get "structs" = ""
      && inner.plainTags && rest.plainTags
  | .leaf _ _ tag _ rest =>
    tag.Get "default" = "" && tag.Get "required" = "" && tag.Get "structs" = ""
      && rest.plainTags

/-! ## The watch lifecycle -/

/-- What `RunWatch` does in its first loop, in the order in which it does it:
`load i` is the call `s.Load()` on the `i`-th source, `watch i` the statement
`go s.Watch(doneMap[i], &wg)` that starts the watch task of the `i`-th source. -/
inductive Event where
  | load (i : Nat)
  | watch (i : Nat)
  deriving DecidableEq, Repr

/-- The `for i, s := range m.Sources` loop of `RunWatch`: the target, `errAll` and the
events so far.  A watch task does not write the target (`EnvSource.Watch` only
receives from its channel). -/
def RunWatch.loop {σ ε : Type} :
    List (Source σ ε) → Nat → σ → Option (List ε) → List Event →
      σ × Option (List ε) × List Event
  | [], _, t, errAll, events => (t, errAll, events)
  | s :: rest, i, t, errAll, events =>
    match s.Load t with
    | (t1, some err) =>
      RunWatch.loop rest (i + 1) t1 (multierrorAppend errAll err)
        (events ++ [.load i, .watch i])
    | (t1, none) =>
      RunWatch.loop rest (i + 1) t1 errAll (events ++ [.load i, .watch i])

/-- Where `RunWatch` stands after its first loop: it has returned the aggregate, or it
is receiving from `m.done`. -/
inductive WatchResult (ε : Type) where
  | returned (errors : List ε)
  | awaitingStop
  deriving DecidableEq, Repr

/-- The method `Merger.RunWatch` up to `return errAll` or the receive `<-m.done`:
the merger, the events of the loop and where the method stands. -/
def Merger.RunWatch {σ ε : Type} (m : Merger σ ε) :
    Merger σ ε × List Event × WatchResult ε :=
  match RunWatch.loop m.Sources 0 m.TargetConfigStruct none [] with
  | (t, some errors, events) =>
    if errors.length > 0 then
      ({ m with TargetConfigStruct := t }, events, .returned errors)
    else ({ m with TargetConfigStruct := t }, events, .awaitingStop)
  | (t, none, events) => ({ m with TargetConfigStruct := t }, events, .awaitingStop)

/-- Strict phase separation of a run: every `Load` comes before every start of a watch
task. -/
def phaseSeparated (events : List Event) : Prop :=
  ∀ (a b i j : Nat), events[a]? = some (.watch i) → events[b]? = some (.load j) → b < a

/-- A watch task running `EnvSource.Watch`: `blocked` in the receive `<-done`,
`signalled` once the receive has completed and the method has not yet returned,
`exited` once it has returned. -/
inductive TaskState where
  | blocked
  | signalled
  | exited
  deriving DecidableEq, Repr

/-- `RunWatch` from `<-m.done` on: receiving from `m.done`; in the loop
`for d := range m.Sources`, about to send on `doneMap[d]` (with `d` the number of
sources: past the loop, at `wg.Wait()`); returned. -/
inductive MainState where
  | awaitingStop
  | cancelling (d : Nat)
  | returned
  deriving DecidableEq, Repr

/-- A watch session: `RunWatch`, the watch tasks, and the counter of the wait group. -/
structure Session where
  main : MainState
  tasks : List TaskState
  counter : Nat
  deriving DecidableEq, Repr

/-- The moves of a watch session.  `stop`: the send of `StopWatch` on `m.done` meets
the receive of `RunWatch`.  `deliver`: the send `doneMap[d] <- true` meets the receive
`<-done` of task `d` (the channels are unbuffered).  `passBarrier`: `wg.Wait()`
returns, which it does when the counter is zero, and `RunWatch` returns `nil`.
`taskReturn i`: task `i` returns from `Watch`.  No move changes the counter: neither
`RunWatch` nor `EnvSource.Watch` calls `Add` or `Done`. -/
inductive Action where
  | stop
  | deliver
  | passBarrier
  | taskReturn (i : Nat)
  deriving DecidableEq, Repr

/-- One move of a watch session, when it is enabled. -/
def Session.step (s : Session) : Action → Option Session
  | .stop =>
    match s.main with
    | .awaitingStop => some { s with main := .cancelling 0 }
    | _ => none
  | .deliver =>
    match s.main with
    | .cancelling d =>
      if s.tasks[d]? = some .blocked then
        some { s with main := .cancelling (d + 1), tasks := s.tasks.set d .signalled }
      else none
    | _ => none
  | .passBarrier =>
    match s.main with
    | .cancelling d =>
      if d = s.tasks.length ∧ s.counter = 0 then some { s with main := .returned } else none
    | _ => none
  | .taskReturn i =>
    if s.tasks[i]? = some .signalled then some { s with tasks := s.tasks.set i .exited }
    else none

/-- A sequence of moves. -/
def Session.run (s : Session) : List Action → Option Session
  | [] => some s
  | a :: rest =>
    match s.step a with
    | some s1 => s1.run rest
    | none => none

/-- The session when `RunWatch` reaches `<-m.done` with `n` sources. -/
def Session.start (n : Nat) : Session :=
  { main := .awaitingStop, tasks := List.replicate n .blocked, counter := 0 }

/-! ## Example configurations -/

/-- A target with a nested struct:
`Host string env:"HOST"`, `Server struct { Port int env:"PORT"; Name string }`,
`Debug bool env:"DEBUG"`. -/
def exampleTarget : Struct :=
  .leaf "Host" true ⟨[("env", "HOST")]⟩ (.str "")
    (.sub "Server" true false ⟨[]⟩
      (.leaf "Port" true ⟨[("env", "PORT")]⟩ (.int 0)
        (.leaf "Name" true ⟨[]⟩ (.str "main") .nil))
      (.leaf "Debug" true ⟨[("env", "DEBUG")]⟩ (.bool false) .nil))

/-- An `EnvSource` authorized for the three variables of `exampleTarget`. -/
def exampleSource : EnvSource := { Variables := ["HOST", "PORT", "DEBUG"] }

/-- An environment in which `PORT` is not a number. -/
def badEnv : Env := fun k =>
  if k = "HOST" then "localhost" else if k = "PORT" then "abc"
  else if k = "DEBUG" then "true" else ""

/-- An environment in which every variable of `exampleTarget` parses. -/
def goodEnv : Env := fun k =>
  if k = "HOST" then "localhost" else if k = "PORT" then "8080"
  else if k = "DEBUG" then "true" else ""

/-- A target with an unexported field: `Host string env:"HOST"`,
`token string env:"TOKEN"`. -/
def secretTarget : Struct :=
  .leaf "Host" true ⟨[("env", "HOST")]⟩ (.str "")
    (.leaf "token" false ⟨[("env", "TOKEN")]⟩ (.str "") .nil)

/-- An `EnvSource` authorized for the two variables of `secretTarget`. -/
def secretSource : EnvSource := { Variables := ["HOST", "TOKEN"] }

/-- An environment with `HOST=localhost` and `TOKEN=s3cret`. -/
def secretEnv : Env := fun k =>
  if k = "HOST" then "localhost" else if k = "TOKEN" then "s3cret" else ""

/-- A target in which the malformed field comes after an unexported one:
`token string env:"TOKEN"`, `Port int env:"PORT"`. -/
def guardedTarget : Struct :=
  .leaf "token" false ⟨[("env", "TOKEN")]⟩ (.str "")
    (.leaf "Port" true ⟨[("env", "PORT")]⟩ (.int 0) .nil)

/-- A target with two int fields: `Workers int env:"WORKERS"`, `Port int env:"PORT"`. -/
def workersTarget : Struct :=
  .leaf "Workers" true ⟨[("env", "WORKERS")]⟩ (.int 0)
    (.leaf "Port" true ⟨[("env", "PORT")]⟩ (.int 0) .nil)

/-- A target whose only field is unexported: `port int env:"PORT"`. -/
def lowerTarget : Struct :=
  .leaf "port" false ⟨[("env", "PORT")]⟩ (.int 0) .nil

/-- A target with a second field that is required: `Port int env:"PORT"`,
`Token string required:"true"`. -/
def requiredTarget : Struct :=
  .leaf "Port" true ⟨[("env", "PORT")]⟩ (.int 0)
    (.leaf "Token" true ⟨[("required", "true")]⟩ (.str "") .nil)

/-- A target with one int field that carries a default:
`Port int env:"PORT" default:"8080"`. -/
def portTarget : Struct :=
  .leaf "Port" true ⟨[("env", "PORT"), ("default", "8080")]⟩ (.int 0) .nil

/-- A source that sets the first field of the target to the int `n` and succeeds. -/
def constSource (n : Int) : Source Struct Err :=
  { Load := fun t =>
      match t with
      | .leaf name exported tag _ rest => (.leaf name exported tag (.int n) rest, none)
      | other => (other, none) }

/-- A source whose `Load` leaves the target alone and fails with the given error. -/
def failingSource (err : Err) : Source Struct Err :=
  { Load := fun t => (t, some (.plain err)) }

/-- A source whose `Load` leaves the target alone and returns a `*multierror.Error`
holding the given errors. -/
def multiSource (errors : List Err) : Source Struct Err :=
  { Load := fun t => (t, some (.multi errors)) }

/-- The value of the first field of a struct, when it is a leaf. -/
def firstValue : Struct → Option Leaf
  | .leaf _ _ _ v _ => some v
  | _ => none

/-- An environment with `PORT=0`. -/
def zeroEnv : Env := fun k => if k = "PORT" then "0" else ""

/-- An environment with `PORT=9090`. -/
def portEnv : Env := fun k => if k = "PORT" then "9090" else ""

/-- A merger on `portTarget` with three sources: one that fails, one that writes 0 and
succeeds, one that fails. -/
def failingMerger : Merger Struct Err :=
  (((NewMerger portTarget).AddSource (failingSource (.requiredMissing "Token"))).AddSource
    (constSource 0)).AddSource (failingSource (.num ⟨"ParseInt", "x", .ErrSyntax⟩))

/-- A merger on `portTarget` with two failing sources, the first of which returns a
`*multierror.Error` holding two errors. -/
def flatteningMerger : Merger Struct Err :=
  ((NewMerger portTarget).AddSource
    (multiSource [.requiredMissing "User", .requiredMissing "Token"])).AddSource
      (failingSource (.num ⟨"ParseInt", "x", .ErrSyntax⟩))

/-- A merger on `portTarget` whose only source returns an empty `*multierror.Error`. -/
def emptyAggregateMerger : Merger Struct Err :=
  (NewMerger portTarget).AddSource (multiSource [])

/-- The merger of a round trip: the target `s` and one registered `EnvSource` with the
given `Variables`. -/
def roundTripMerger (s : Struct) (vars : List String) (env : Env) : Merger Struct Err :=
  (NewMerger s).AddSource (EnvSource.toSource { Variables := vars } env)

/-! ## Lemmas -/

/-- `StringInSlice` decides membership. -/
theorem StringInSlice_iff (a : String) (l : List String) :
    StringInSlice a l = true ↔ a ∈ l := by
  simp [StringInSlice]

/-- One step of `processEnvTags` on a non-struct field, through `bindLeaf`. -/
theorem processEnvTags_leaf (e : EnvSource) (env : Env) (ro : Bool) (name : String)
    (exported : Bool) (tag : Tag) (value : Leaf) (rest : Struct) :
    e.processEnvTags env ro (.leaf name exported tag value rest) =
      match e.bindLeaf env (!(ro || !exported)) tag value with
      | .error err => (.leaf name exported tag value rest, some err)
      | .ok v =>
        (.leaf name exported tag v (e.processEnvTags env ro rest).1,
          (e.processEnvTags env ro rest).2) := by
  rw [EnvSource.processEnvTags, EnvSource.bindLeaf]
  by_cases h : tag.Get "env" ≠ "" ∧ StringInSlice (tag.Get "env") e.Variables = true
  · simp only [if_pos h]
    cases hro : (ro || !exported) <;> cases value with
    | str s => simp
    | int i => cases hp : ParseInt (Getenv env (tag.Get "env")) <;> simp
    | bool b => cases hp : ParseBool (Getenv env (tag.Get "env")) <;> simp
    | other v => simp
  · simp only [if_neg h]

/-- The cells of a struct are its leaves, each with its settable flag. -/
theorem cells_map_fst (ro : Bool) (s : Struct) :
    (s.cells ro).map Prod.fst = s.leaves := by
  induction s generalizing ro with
  | nil => rfl
  | leaf name exported tag value rest ih => simp [Struct.cells, Struct.leaves, ih]
  | sub name exported embedded tag inner rest ihi ihr =>
    simp [Struct.cells, Struct.leaves, ← ihi (ro || (!exported && !embedded)), ← ihr ro]

/-- The second components of the cells of a struct are its settable flags. -/
theorem cells_map_snd (ro : Bool) (s : Struct) :
    (s.cells ro).map Prod.snd = s.settable ro := by
  induction s generalizing ro with
  | nil => rfl
  | leaf name exported tag value rest ih => simp [Struct.cells, Struct.settable, ih]
  | sub name exported embedded tag inner rest ihi ihr =>
    simp [Struct.cells, Struct.settable, ← ihi (ro || (!exported && !embedded)), ← ihr ro]

/-- A leaf at a position is a cell at that position. -/
theorem cells_of_leaf (ro : Bool) (s : Struct) (i : Nat) (f : FieldAt)
    (h : s.leaves[i]? = some f) :
    ∃ b, (s.cells ro)[i]? = some (f, b) ∧ (s.settable ro)[i]? = some b := by
  rw [← cells_map_fst ro s, List.getElem?_map] at h
  rw [← cells_map_snd ro s, List.getElem?_map]
  cases hc : (s.cells ro)[i]? with
  | none => rw [hc] at h; cases h
  | some c =>
    rw [hc] at h
    simp only [Option.map_some', Option.some.injEq] at h
    subst h
    exact ⟨c.2, rfl, rfl⟩

/-- Binding does not look at the path of a leaf. -/
theorem bindLeaves_map_under (e : EnvSource) (env : Env) (name : String)
    (l : List (FieldAt × Bool)) :
    e.bindLeaves env (l.map (fun c => (c.1.under name, c.2))) =
      ((e.bindLeaves env l).1.map (FieldAt.under name), (e.bindLeaves env l).2) := by
  induction l with
  | nil => simp [EnvSource.bindLeaves]
  | cons c rest ih =>
    simp only [List.map_cons, EnvSource.bindLeaves]
    have h1 : (FieldAt.under name c.1).tag = c.1.tag := rfl
    have h2 : (FieldAt.under name c.1).value = c.1.value := rfl
    rw [h1, h2]
    cases hb : e.bindLeaf env c.2 c.1.tag c.1.value with
    | error err => simp [Function.comp_def]
    | ok v =>
      simp only [ih]
      simp [FieldAt.under]

/-- Binding a concatenation: the second part is reached only when the first raised no
error. -/
theorem bindLeaves_append (e : EnvSource) (env : Env) (l1 l2 : List (FieldAt × Bool)) :
    e.bindLeaves env (l1 ++ l2) =
      match (e.bindLeaves env l1).2 with
      | some err => ((e.bindLeaves env l1).1 ++ l2.map Prod.fst, some err)
      | none => ((e.bindLeaves env l1).1 ++ (e.bindLeaves env l2).1, (e.bindLeaves env l2).2) := by
  induction l1 with
  | nil => simp [EnvSource.bindLeaves]
  | cons c rest ih =>
    simp only [List.cons_append, EnvSource.bindLeaves]
    cases hb : e.bindLeaf env c.2 c.1.tag c.1.value with
    | error err => simp
    | ok v =>
      simp only [List.append_eq, ih]
      cases hr : (e.bindLeaves env rest).2 <;> simp

/-- The traversal of the field tree is the sequential binding of its leaves: same leaves
afterwards, same end. -/
theorem processEnvTags_leaves (e : EnvSource) (env : Env) (ro : Bool) (s : Struct) :
    ((e.processEnvTags env ro s).1.leaves, (e.processEnvTags env ro s).2) =
      e.bindLeaves env (s.cells ro) := by
  induction s generalizing ro with
  | nil => simp [EnvSource.processEnvTags, Struct.leaves, Struct.cells, EnvSource.bindLeaves]
  | leaf name exported tag value rest ih =>
    rw [processEnvTags_leaf]
    simp only [Struct.cells, EnvSource.bindLeaves]
    cases hb : e.bindLeaf env (!(ro || !exported)) tag value with
    | error err => simp [Struct.leaves, cells_map_fst]
    | ok v =>
      simp only [Struct.leaves]
      rw [← ih ro]
  | sub name exported embedded tag inner rest ihi ihr =>
    simp only [Struct.cells, bindLeaves_append, bindLeaves_map_under]
    rw [← ihi (ro || (!exported && !embedded)), ← ihr ro, EnvSource.processEnvTags]
    cases hr : e.processEnvTags env (ro || (!exported && !embedded)) inner with
    | mk inner1 r =>
      cases r <;> simp [Struct.leaves, cells_map_fst]

/-- The leaves after `processEnvTags`. -/
theorem processEnvTags_leaves_fst (e : EnvSource) (env : Env) (ro : Bool) (s : Struct) :
    (e.processEnvTags env ro s).1.leaves = (e.bindLeaves env (s.cells ro)).1 := by
  rw [← processEnvTags_leaves]

/-- The end of `processEnvTags`. -/
theorem processEnvTags_leaves_snd (e : EnvSource) (env : Env) (ro : Bool) (s : Struct) :
    (e.processEnvTags env ro s).2 = (e.bindLeaves env (s.cells ro)).2 := by
  rw [← processEnvTags_leaves]

/-- `Load` leaves the target as `processEnvTags` leaves it. -/
theorem Load_fst (e : EnvSource) (env : Env) (s : Struct) :
    (e.Load env s).1 = (e.processEnvTags env false s).1 := by
  unfold EnvSource.Load
  split <;> simp_all

/-- `Load` returns `nil` when `processEnvTags` does not panic. -/
theorem Load_snd_of_no_panic (e : EnvSource) (env : Env) (s : Struct)
    (h : ∀ msg, (e.processEnvTags env false s).2 ≠ some (.panic msg)) :
    (e.Load env s).2 = none := by
  unfold EnvSource.Load
  split
  · rename_i t msg heq
    exact absurd (by rw [heq]) (h msg)
  · rfl

/-- `Load` returns `nil` or panics. -/
theorem Load_snd (e : EnvSource) (env : Env) (s : Struct) :
    (e.Load env s).2 = none ∨ ∃ msg, (e.Load env s).2 = some (.panic msg) := by
  unfold EnvSource.Load
  split
  · rename_i t msg heq
    exact Or.inr ⟨msg, rfl⟩
  · exact Or.inl rfl

/-- A field without `env` tag, or with one outside `Variables`, is passed over. -/
theorem bindLeaf_skip (e : EnvSource) (env : Env) (canSet : Bool) (tag : Tag)
    (value : Leaf) (h : tag.Get "env" = "" ∨ tag.Get "env" ∉ e.Variables) :
    e.bindLeaf env canSet tag value = .ok value := by
  unfold EnvSource.bindLeaf
  have : ¬ (tag.Get "env" ≠ "" ∧ StringInSlice (tag.Get "env") e.Variables = true) := by
    rw [StringInSlice_iff]
    rintro ⟨h1, h2⟩
    rcases h with h | h
    · exact h1 h
    · exact h h2
  simp only [if_neg this]

/-- An authorized field that can be set and whose value converts is given the
conversion. -/
theorem bindLeaf_of_conversion (e : EnvSource) (env : Env) (canSet : Bool) (f : FieldAt)
    (v : Leaf) (h1 : f.tag.Get "env" ≠ "") (h2 : f.tag.Get "env" ∈ e.Variables)
    (hset : f.value.isBindable = true → canSet = true)
    (hc : conversion env f = some v) :
    e.bindLeaf env canSet f.tag f.value = .ok v := by
  unfold EnvSource.bindLeaf
  have ha : f.tag.Get "env" ≠ "" ∧ StringInSlice (f.tag.Get "env") e.Variables = true :=
    ⟨h1, (StringInSlice_iff _ _).2 h2⟩
  simp only [if_pos ha]
  unfold conversion at hc
  cases hv : f.value with
  | str s =>
    rw [hv] at hset
    simp only [hv] at hc ⊢
    cases hc
    simp [hset rfl]
  | int i =>
    rw [hv] at hset
    simp only [hv] at hc ⊢
    cases hp : ParseInt (Getenv env (f.tag.Get "env")) with
    | error err => simp [hp] at hc
    | ok n =>
      simp only [hp] at hc ⊢
      cases hc
      simp [hset rfl]
  | bool b =>
    rw [hv] at hset
    simp only [hv] at hc ⊢
    cases hp : ParseBool (Getenv env (f.tag.Get "env")) with
    | error err => simp [hp] at hc
    | ok n =>
      simp only [hp] at hc ⊢
      cases hc
      simp [hset rfl]
  | other o => simp only [hv] at hc ⊢; cases hc; rfl

/-- An authorized int field whose value does not parse raises the `strconv` error,
settable or not. -/
theorem bindLeaf_int_error (e : EnvSource) (env : Env) (canSet : Bool) (tag : Tag)
    (old : Int) (err : NumError)
    (h1 : tag.Get "env" ≠ "") (h2 : tag.Get "env" ∈ e.Variables)
    (hp : ParseInt (Getenv env (tag.Get "env")) = .error err) :
    e.bindLeaf env canSet tag (.int old) = .error (.num err) := by
  unfold EnvSource.bindLeaf
  have ha : tag.Get "env" ≠ "" ∧ StringInSlice (tag.Get "env") e.Variables = true :=
    ⟨h1, (StringInSlice_iff _ _).2 h2⟩
  simp only [if_pos ha, hp]

/-- A leaf that binding maps to itself is found unchanged at its position. -/
theorem bindLeaves_frame (e : EnvSource) (env : Env) (l : List (FieldAt × Bool)) (i : Nat)
    (c : FieldAt × Bool) (hf : l[i]? = some c)
    (hb : e.bindLeaf env c.2 c.1.tag c.1.value = .ok c.1.value) :
    (e.bindLeaves env l).1[i]? = some c.1 := by
  induction l generalizing i with
  | nil => simp at hf
  | cons g rest ih =>
    rw [EnvSource.bindLeaves]
    cases hg : e.bindLeaf env g.2 g.1.tag g.1.value with
    | error err =>
      show (g.1 :: rest.map Prod.fst)[i]? = some c.1
      rw [← List.map_cons Prod.fst g rest, List.getElem?_map, hf]
      rfl
    | ok v =>
      cases i with
      | zero =>
        simp only [List.getElem?_cons_zero, Option.some.injEq] at hf
        subst hf
        rw [hb] at hg
        cases hg
        simp
      | succ j =>
        simp only [List.getElem?_cons_succ] at hf ⊢
        exact ih j hf

/-- When every leaf binds, the traversal ends with `nil` and every leaf holds its bound
value. -/
theorem bindLeaves_all_ok (e : EnvSource) (env : Env) (l : List (FieldAt × Bool))
    (hok : ∀ c ∈ l, ∃ v, e.bindLeaf env c.2 c.1.tag c.1.value = .ok v) :
    (e.bindLeaves env l).2 = none ∧
      ∀ (i : Nat) (c : FieldAt × Bool), l[i]? = some c →
        ∃ v, e.bindLeaf env c.2 c.1.tag c.1.value = .ok v ∧
          (e.bindLeaves env l).1[i]? = some { c.1 with value := v } := by
  induction l with
  | nil => simp [EnvSource.bindLeaves]
  | cons g rest ih =>
    have ihr := ih (fun f hf => hok f (List.mem_cons_of_mem _ hf))
    obtain ⟨v, hv⟩ := hok g (List.mem_cons_self _ _)
    rw [EnvSource.bindLeaves]
    simp only [hv]
    refine ⟨ihr.1, ?_⟩
    intro i f hf
    cases i with
    | zero =>
      simp only [List.getElem?_cons_zero, Option.some.injEq] at hf
      subst hf
      exact ⟨v, hv, by simp⟩
    | succ j =>
      simp only [List.getElem?_cons_succ] at hf ⊢
      exact ihr.2 j f hf

/-- When the leaf at position `g` is the first that fails: its error is what the
traversal ends with, the leaves before it hold their bound values, the leaves from `g`
on are untouched. -/
theorem bindLeaves_first_error (e : EnvSource) (env : Env) (l : List (FieldAt × Bool))
    (g : Nat) (G : FieldAt × Bool) (err : Err) (hG : l[g]? = some G)
    (hbad : e.bindLeaf env G.2 G.1.tag G.1.value = .error err)
    (hbefore : ∀ (i : Nat) (c : FieldAt × Bool), i < g → l[i]? = some c →
      ∃ v, e.bindLeaf env c.2 c.1.tag c.1.value = .ok v) :
    (e.bindLeaves env l).2 = some err ∧
      (∀ (i : Nat) (c : FieldAt × Bool), i < g → l[i]? = some c →
        ∃ v, e.bindLeaf env c.2 c.1.tag c.1.value = .ok v ∧
          (e.bindLeaves env l).1[i]? = some { c.1 with value := v }) ∧
      (∀ (i : Nat), g ≤ i → (e.bindLeaves env l).1[i]? = (l.map Prod.fst)[i]?) := by
  induction l generalizing g with
  | nil => simp at hG
  | cons h rest ih =>
    cases g with
    | zero =>
      simp only [List.getElem?_cons_zero, Option.some.injEq] at hG
      subst hG
      rw [EnvSource.bindLeaves]
      simp only [hbad]
      refine ⟨trivial, ?_, ?_⟩
      · intro i f hi; omega
      · intro i _; rfl
    | succ k =>
      simp only [List.getElem?_cons_succ] at hG
      obtain ⟨v, hv⟩ := hbefore 0 h (by omega) (by simp)
      have ihr := ih k hG (fun i f hi hf => hbefore (i + 1) f (by omega) (by simpa using hf))
      rw [EnvSource.bindLeaves]
      simp only [hv]
      refine ⟨ihr.1, ?_, ?_⟩
      · intro i f hi hf
        cases i with
        | zero =>
          simp only [List.getElem?_cons_zero, Option.some.injEq] at hf
          subst hf
          exact ⟨v, hv, by simp⟩
        | succ j =>
          simp only [List.getElem?_cons_succ] at hf ⊢
          exact ihr.2.1 j f (by omega) hf
      · intro i hi
        cases i with
        | zero => omega
        | succ j =>
          simp only [List.map_cons, List.getElem?_cons_succ]
          exact ihr.2.2 j (by omega)

/-- The code point of a digit character. -/
theorem digitChar_toNat (d : Nat) (hd : d < 10) : (digitChar d).toNat = 48 + d := by
  interval_cases d <;> rfl

/-- A digit character is not a sign. -/
theorem digitChar_ne_sign (d : Nat) (hd : d < 10) : digitChar d ≠ '+' ∧ digitChar d ≠ '-' := by
  interval_cases d <;> decide

/-- One round of the digit loop of `ParseUint` when nothing overflows. -/
theorem ParseUint_loop_digit (s0 : String) (d n : Nat) (cs : List Char) (hd : d < 10)
    (hn : n * 10 + d < 2 ^ 64) :
    ParseUint.loop s0 (digitChar d :: cs) n = ParseUint.loop s0 cs (n * 10 + d) := by
  rw [ParseUint.loop]
  have h48 : '0'.toNat = 48 := rfl
  have h57 : '9'.toNat = 57 := rfl
  rw [digitChar_toNat d hd, h48, h57]
  have hc : 48 ≤ 48 + d ∧ 48 + d ≤ 57 := by omega
  have hcut : ¬ n ≥ cutoff10 := by
    unfold cutoff10
    norm_num
    norm_num at hn
    omega
  have hm : (n * 10) % 2 ^ 64 = n * 10 := Nat.mod_eq_of_lt (by omega)
  have hsub : 48 + d - 48 = d := by omega
  have hn1 : (n * 10 + d) % 2 ^ 64 = n * 10 + d := Nat.mod_eq_of_lt hn
  have hov : ¬ (n * 10 + d < n * 10 ∨ n * 10 + d > maxVal64) := by
    unfold maxVal64
    omega
  simp only [if_pos hc, if_neg hcut, hm, hsub, hn1, if_neg hov]

/-- The digit loop reads back the digits of `n`. -/
theorem ParseUint_loop_go (s0 : String) (fuel n : Nat) (acc : List Char) (hf : n < fuel)
    (hn : n < 2 ^ 64) :
    ParseUint.loop s0 (decimalDigits.go fuel n acc) 0 = ParseUint.loop s0 acc n := by
  induction fuel generalizing n acc with
  | zero => omega
  | succ fuel ih =>
    rw [decimalDigits.go]
    by_cases h0 : n / 10 = 0
    · rw [if_pos h0, ParseUint_loop_digit s0 (n % 10) 0 acc (Nat.mod_lt _ (by norm_num)) (by omega)]
      congr 1
      omega
    · rw [if_neg h0, ih (n / 10) _ (by omega) (by omega),
        ParseUint_loop_digit s0 (n % 10) (n / 10) acc (Nat.mod_lt _ (by norm_num)) (by omega)]
      congr 1
      omega

/-- The rendering starts with a digit. -/
theorem decimalDigits_go_head (fuel n : Nat) (acc : List Char) :
    ∃ d, d < 10 ∧ ∃ tl, decimalDigits.go (fuel + 1) n acc = digitChar d :: tl := by
  induction fuel generalizing n acc with
  | zero =>
    rw [decimalDigits.go]
    by_cases h0 : n / 10 = 0
    · rw [if_pos h0]; exact ⟨n % 10, Nat.mod_lt _ (by norm_num), acc, rfl⟩
    · rw [if_neg h0, decimalDigits.go]; exact ⟨n % 10, Nat.mod_lt _ (by norm_num), acc, rfl⟩
  | succ fuel ih =>
    rw [decimalDigits.go]
    by_cases h0 : n / 10 = 0
    · rw [if_pos h0]; exact ⟨n % 10, Nat.mod_lt _ (by norm_num), acc, rfl⟩
    · rw [if_neg h0]; exact ih _ _

/-- The digits of a number start with a digit. -/
theorem decimalDigits_head (n : Nat) :
    ∃ d, d < 10 ∧ ∃ tl, decimalDigits n = digitChar d :: tl :=
  decimalDigits_go_head n n []

/-- `ParseUint` inverts the rendering of a 64-bit unsigned number. -/
theorem ParseUint_decimalDigits (n : Nat) (hn : n < 2 ^ 64) :
    ParseUint ⟨decimalDigits n⟩ = (n, none) := by
  obtain ⟨d, _, tl, htl⟩ := decimalDigits_head n
  have hne : (⟨decimalDigits n⟩ : String) ≠ "" := by
    intro h
    have := congrArg String.data h
    simp [htl] at this
  rw [ParseUint, if_neg hne]
  show ParseUint.loop _ (decimalDigits.go (n + 1) n []) 0 = _
  rw [ParseUint_loop_go _ (n + 1) n [] (by omega) hn, ParseUint.loop]

/-- `ParseInt` on a non-empty string. -/
theorem ParseInt_cons (c : Char) (cs : List Char) :
    ParseInt ⟨c :: cs⟩ =
      match ParseUint (if c = '+' ∨ c = '-' then ⟨cs⟩ else ⟨c :: cs⟩) with
      | (_, some ⟨_, _, .ErrSyntax⟩) => .error ⟨"ParseInt", ⟨c :: cs⟩, .ErrSyntax⟩
      | (un, _) =>
        if ¬ (c = '-') ∧ un ≥ 2 ^ 63 then .error ⟨"ParseInt", ⟨c :: cs⟩, .ErrRange⟩
        else if c = '-' ∧ un > 2 ^ 63 then .error ⟨"ParseInt", ⟨c :: cs⟩, .ErrRange⟩
        else .ok (if c = '-' then negInt64 (toInt64 un) else toInt64 un) := rfl

/-- `ParseInt` inverts the base-10 rendering on the whole signed 64-bit range. -/
theorem ParseInt_decimal (n : Int) (hlo : -(2 ^ 63) ≤ n) (hhi : n < 2 ^ 63) :
    ParseInt (decimal n) = .ok n := by
  unfold decimal
  by_cases hneg : n < 0
  · rw [if_pos hneg]
    have hlt : n.natAbs < 2 ^ 64 := by omega
    have hmod : n.natAbs % 2 ^ 64 = n.natAbs := Nat.mod_eq_of_lt hlt
    rw [ParseInt_cons, if_pos (Or.inr rfl), ParseUint_decimalDigits n.natAbs hlt]
    have h1 : ¬ (¬ (('-' : Char) = '-') ∧ n.natAbs ≥ 2 ^ 63) := by
      rintro ⟨h, _⟩; exact h rfl
    have h2 : ¬ ((('-' : Char) = '-') ∧ n.natAbs > 2 ^ 63) := by
      rintro ⟨_, h⟩; omega
    show (if ¬ (('-' : Char) = '-') ∧ n.natAbs ≥ 2 ^ 63 then _ else _) = _
    rw [if_neg h1, if_neg h2, if_pos rfl]
    congr 1
    unfold toInt64 negInt64
    rw [hmod]
    by_cases h63 : n.natAbs < 2 ^ 63
    · rw [if_pos h63]
      have : ¬ (-(n.natAbs : Int) = 2 ^ 63) := by omega
      rw [if_neg this]
      omega
    · rw [if_neg h63]
      have he : n.natAbs = 2 ^ 63 := by omega
      rw [he]
      norm_num
      omega
  · rw [if_neg hneg]
    have hlt : n.toNat < 2 ^ 64 := by omega
    obtain ⟨d, hd, tl, htl⟩ := decimalDigits_head n.toNat
    obtain ⟨hplus, hminus⟩ := digitChar_ne_sign d hd
    have hmod : n.toNat % 2 ^ 64 = n.toNat := Nat.mod_eq_of_lt hlt
    have hU := ParseUint_decimalDigits n.toNat hlt
    rw [htl] at hU ⊢
    rw [ParseInt_cons, if_neg (by rintro (h | h); exacts [hplus h, hminus h]), hU]
    have h1 : ¬ (¬ (digitChar d = '-') ∧ n.toNat ≥ 2 ^ 63) := by
      rintro ⟨_, h⟩; omega
    have h2 : ¬ ((digitChar d = '-') ∧ n.toNat > 2 ^ 63) := by
      rintro ⟨h, _⟩; exact hminus h
    show (if ¬ (digitChar d = '-') ∧ n.toNat ≥ 2 ^ 63 then _ else _) = _
    rw [if_neg h1, if_neg h2, if_neg hminus]
    congr 1
    unfold toInt64
    rw [hmod]
    have h63 : n.toNat < 2 ^ 63 := by omega
    rw [if_pos h63]
    omega

/-- The errors of the load pass, source by source. -/
theorem loadErrors_cons {σ ε : Type} (s : Source σ ε) (rest : List (Source σ ε)) (t : σ) :
    loadErrors (s :: rest) t =
      (match (s.Load t).2 with
        | some err => err.entries
        | none => []) ++ loadErrors rest (s.Load t).1 := by
  unfold loadErrors
  rw [loadResults]
  cases (s.Load t).2 <;> simp

/-- The load loop of `Run`: the target is `loadAll`; `errAll` is untouched when no `Load`
fails and otherwise holds the errors of `loadErrors` appended. -/
theorem Run_loop_eq {σ ε : Type} (srcs : List (Source σ ε)) (t : σ)
    (errAll : Option (List ε)) :
    Run.loop srcs t errAll =
      (loadAll srcs t,
        match loadResults srcs t with
        | [] => errAll
        | _ :: _ => some (errAll.getD [] ++ loadErrors srcs t)) := by
  induction srcs generalizing t errAll with
  | nil => rfl
  | cons s rest ih =>
    rw [Run.loop, loadErrors_cons, loadResults]
    cases hL : s.Load t with
    | mk t1 r =>
      cases r with
      | none =>
        simp only [ih, loadAll, List.foldl_cons, hL, List.nil_append]
      | some err =>
        simp only [ih, loadAll, List.foldl_cons, hL]
        congr 1
        cases hr : loadResults rest t1 with
        | nil =>
          have : loadErrors rest t1 = [] := by simp [loadErrors, hr]
          cases errAll <;> simp [multierrorAppend, this]
        | cons r1 rs =>
          cases errAll <;> simp [multierrorAppend]

/-- No failing `Load`, no error in the aggregate. -/
theorem loadErrors_of_loadResults_nil {σ ε : Type} (srcs : List (Source σ ε)) (t : σ)
    (h : loadResults srcs t = []) : loadErrors srcs t = [] := by
  simp [loadErrors, h]

/-- The load loop when the aggregate is not empty. -/
theorem Run_loop_of_errors {σ ε : Type} (srcs : List (Source σ ε)) (t : σ)
    (h : loadErrors srcs t ≠ []) :
    Run.loop srcs t none = (loadAll srcs t, some (loadErrors srcs t)) := by
  rw [Run_loop_eq]
  cases hl : loadResults srcs t with
  | nil => exact absurd (loadErrors_of_loadResults_nil srcs t hl) h
  | cons e es => simp

/-- The load loop when the aggregate is empty: `errAll` is the nil pointer, or holds no
error. -/
theorem Run_loop_of_no_errors {σ ε : Type} (srcs : List (Source σ ε)) (t : σ)
    (h : loadErrors srcs t = []) :
    Run.loop srcs t none = (loadAll srcs t, none) ∨
      Run.loop srcs t none = (loadAll srcs t, some []) := by
  rw [Run_loop_eq]
  cases hl : loadResults srcs t with
  | nil => exact Or.inl rfl
  | cons e es => exact Or.inr (by simp [h])

/-- The target after the load loop. -/
theorem Run_loop_fst {σ ε : Type} (srcs : List (Source σ ε)) (t : σ)
    (errAll : Option (List ε)) :
    (Run.loop srcs t errAll).1 = loadAll srcs t := by
  rw [Run_loop_eq]

/-- The load loop with call logging: same target, same errors, and the indices in
order. -/
theorem Run_loop_logged {σ ε : Type} (srcs : List (Source σ ε)) (i : Nat) (t : σ)
    (log : List Nat) (errAll : Option (List ε)) :
    Run.loop (loggedFrom i srcs) (t, log) errAll =
      ((loadAll srcs t, log ++ List.range' i srcs.length), (Run.loop srcs t errAll).2) := by
  induction srcs generalizing i t log errAll with
  | nil => simp [loggedFrom, Run.loop, loadAll]
  | cons s rest ih =>
    rw [loggedFrom, Run.loop, Run.loop]
    cases hL : s.Load t with
    | mk t1 r =>
      cases r with
      | none =>
        simp only [Source.logged, hL, ih, loadAll, List.foldl_cons, List.length_cons,
          List.range'_succ, List.append_assoc, List.singleton_append]
      | some err =>
        simp only [Source.logged, hL, ih, loadAll, List.foldl_cons, List.length_cons,
          List.range'_succ, List.append_assoc, List.singleton_append]

/-- `Run` after a load pass whose aggregate is not empty. -/
theorem Run_of_errors {σ ε : Type} (m : Merger σ ε) (setDefaults : σ → σ × Option ε)
    (checkRequiredFields : σ → Option ε)
    (h : loadErrors m.Sources m.TargetConfigStruct ≠ []) :
    m.Run setDefaults checkRequiredFields =
      ({ m with TargetConfigStruct := loadAll m.Sources m.TargetConfigStruct },
        some (.aggregate (loadErrors m.Sources m.TargetConfigStruct))) := by
  rw [Merger.Run, Run_loop_of_errors _ _ h]
  have hlen : (loadErrors m.Sources m.TargetConfigStruct).length > 0 :=
    List.length_pos.2 h
  simp only [if_pos hlen]

/-- `Run` after a load pass whose aggregate is empty. -/
theorem Run_of_no_errors {σ ε : Type} (m : Merger σ ε) (setDefaults : σ → σ × Option ε)
    (checkRequiredFields : σ → Option ε)
    (h : loadErrors m.Sources m.TargetConfigStruct = []) :
    m.Run setDefaults checkRequiredFields =
      ({ m with TargetConfigStruct :=
            (Run.validate setDefaults checkRequiredFields
              (loadAll m.Sources m.TargetConfigStruct)).1 },
        (Run.validate setDefaults checkRequiredFields
              (loadAll m.Sources m.TargetConfigStruct)).2) := by
  rw [Merger.Run]
  rcases Run_loop_of_no_errors _ _ h with h1 | h1
  · rw [h1]
  · rw [h1]
    simp

/-- The target after validation is the target after `setDefaults`. -/
theorem validate_fst {σ ε : Type} (setDefaults : σ → σ × Option ε)
    (checkRequiredFields : σ → Option ε) (t : σ) :
    (Run.validate setDefaults checkRequiredFields t).1 = (setDefaults t).1 := by
  unfold Run.validate
  cases hd : setDefaults t with
  | mk t1 r =>
    cases r with
    | some err => rfl
    | none =>
      show (match checkRequiredFields t1 with
        | some err => (t1, some (RunError.plain err))
        | none => (t1, none)).1 = t1
      cases checkRequiredFields t1 <;> rfl

/-- Registering a list of sources appends it to `Sources`. -/
theorem AddSources_eq {σ ε : Type} (m : Merger σ ε) (srcs : List (Source σ ε)) :
    m.AddSources srcs = { m with Sources := m.Sources ++ srcs } := by
  induction srcs generalizing m with
  | nil => simp [Merger.AddSources]
  | cons s rest ih =>
    have h := ih (m.AddSource s)
    simp only [Merger.AddSources, List.foldl_cons] at h ⊢
    rw [h]
    simp [Merger.AddSource]

/-- The sources of `registered`, in registration order. -/
theorem registered_Sources {σ ε : Type} (m : Merger σ ε) (A : Source σ ε)
    (mid : List (Source σ ε)) (B : Source σ ε) (post : List (Source σ ε)) :
    (registered m A mid B post).Sources = m.Sources ++ A :: mid ++ B :: post := by
  simp [registered, AddSources_eq, Merger.AddSource]

/-- Registering sources leaves the target alone. -/
theorem registered_Target {σ ε : Type} (m : Merger σ ε) (A : Source σ ε)
    (mid : List (Source σ ε)) (B : Source σ ε) (post : List (Source σ ε)) :
    (registered m A mid B post).TargetConfigStruct = m.TargetConfigStruct := by
  simp [registered, AddSources_eq, Merger.AddSource]

/-- Sources that do not write a field leave it as it is. -/
theorem loadAll_frame {σ ε α : Type} (get : σ → α) (post : List (Source σ ε))
    (hpost : ∀ s ∈ post, ∀ t, get (s.Load t).1 = get t) (t : σ) :
    get (loadAll post t) = get t := by
  induction post generalizing t with
  | nil => rfl
  | cons s rest ih =>
    have h1 := ih (fun s hs => hpost s (List.mem_cons_of_mem _ hs)) (s.Load t).1
    have h2 := hpost s (List.mem_cons_self _ _) t
    simp only [loadAll, List.foldl_cons] at h1 ⊢
    rw [h1, h2]

/-- The first loop of `RunWatch` has the effect and the errors of the load loop of `Run`,
and its events alternate `load i`, `watch i`. -/
theorem RunWatch_loop_eq {σ ε : Type} (srcs : List (Source σ ε)) (i : Nat) (t : σ)
    (errAll : Option (List ε)) (events : List Event) :
    RunWatch.loop srcs i t errAll events =
      ((Run.loop srcs t errAll).1, (Run.loop srcs t errAll).2,
        events ++ (List.range' i srcs.length).flatMap (fun k => [.load k, .watch k])) := by
  induction srcs generalizing i t errAll events with
  | nil => simp [RunWatch.loop, Run.loop]
  | cons s rest ih =>
    rw [RunWatch.loop, Run.loop]
    cases hL : s.Load t with
    | mk t1 r =>
      cases r with
      | none =>
        simp only [ih, List.length_cons, List.range'_succ, List.flatMap_cons,
          List.append_assoc]
      | some err =>
        simp only [ih, List.length_cons, List.range'_succ, List.flatMap_cons,
          List.append_assoc]

/-- No move changes the counter of the wait group. -/
theorem step_counter (s s1 : Session) (a : Action) (h : s.step a = some s1) :
    s1.counter = s.counter := by
  cases a with
  | stop =>
    simp only [Session.step] at h
    split at h
    · cases h; rfl
    · cases h
  | deliver =>
    simp only [Session.step] at h
    split at h
    · split at h
      · cases h; rfl
      · cases h
    · cases h
  | passBarrier =>
    simp only [Session.step] at h
    split at h
    · split at h
      · cases h; rfl
      · cases h
    · cases h
  | taskReturn i =>
    simp only [Session.step] at h
    split at h
    · cases h; rfl
    · cases h

/-- No sequence of moves changes the counter of the wait group. -/
theorem run_counter (s s1 : Session) (sched : List Action) (h : s.run sched = some s1) :
    s1.counter = s.counter := by
  induction sched generalizing s with
  | nil =>
    simp only [Session.run, Option.some.injEq] at h
    rw [h]
  | cons a rest ih =>
    simp only [Session.run] at h
    cases hs : s.step a with
    | none => rw [hs] at h; cases h
    | some s2 =>
      rw [hs] at h
      rw [ih s2 h, step_counter s s2 a hs]

/-- A cell at a position is a leaf at that position, with its settable flag. -/
theorem leaf_of_cell (ro : Bool) (s : Struct) (i : Nat) (c : FieldAt × Bool)
    (h : (s.cells ro)[i]? = some c) :
    s.leaves[i]? = some c.1 ∧ (s.settable ro)[i]? = some c.2 := by
  rw [← cells_map_fst ro s, ← cells_map_snd ro s, List.getElem?_map, List.getElem?_map, h]
  exact ⟨rfl, rfl⟩

/-- A cell whose leaf is authorized, converts and, when of a kind the binder writes, can
be set, binds. -/
theorem bindLeaf_ok_of (e : EnvSource) (env : Env) (c : FieldAt × Bool)
    (hparse : c.1.tag.Get "env" ≠ "" → c.1.tag.Get "env" ∈ e.Variables →
      (conversion env c.1).isSome = true)
    (hset : c.1.tag.Get "env" ≠ "" → c.1.tag.Get "env" ∈ e.Variables →
      c.1.value.isBindable = true → c.2 = true) :
    ∃ v, e.bindLeaf env c.2 c.1.tag c.1.value = .ok v := by
  by_cases ha : c.1.tag.Get "env" ≠ "" ∧ c.1.tag.Get "env" ∈ e.Variables
  · obtain ⟨v, hv⟩ := Option.isSome_iff_exists.1 (hparse ha.1 ha.2)
    exact ⟨v, bindLeaf_of_conversion e env c.2 c.1 v ha.1 ha.2 (hset ha.1 ha.2) hv⟩
  · refine ⟨c.1.value, bindLeaf_skip e env c.2 c.1.tag c.1.value ?_⟩
    by_cases h1 : c.1.tag.Get "env" = ""
    · exact Or.inl h1
    · exact Or.inr (fun h2 => ha ⟨h1, h2⟩)

/-- On a target that binds cleanly the traversal ends with `nil` and leaves the fully
bound struct. -/
theorem processEnvTags_clean (e : EnvSource) (env : Env) (ro : Bool) (s : Struct)
    (h : e.clean env ro s = true) :
    e.processEnvTags env ro s = (e.bound env s, none) := by
  induction s generalizing ro with
  | nil => rfl
  | sub name exported embedded tag inner rest ihi ihr =>
    simp only [EnvSource.clean, Bool.and_eq_true] at h
    rw [EnvSource.processEnvTags, ihi _ h.1, ihr _ h.2]
    rfl
  | leaf name exported tag value rest ih =>
    simp only [EnvSource.clean, Bool.and_eq_true] at h
    rw [processEnvTags_leaf, ih _ h.2, EnvSource.bound]
    by_cases ha : tag.Get "env" ≠ "" ∧ StringInSlice (tag.Get "env") e.Variables = true
    · have h1 := h.1
      rw [if_pos ha, Bool.and_eq_true] at h1
      obtain ⟨v, hv⟩ := Option.isSome_iff_exists.1 h1.1
      have hb := bindLeaf_of_conversion e env (!(ro || !exported)) ⟨[name], tag, value⟩ v
        ha.1 ((StringInSlice_iff _ _).1 ha.2)
        (fun hbind => by
          have h2 := h1.2
          simp only [hbind, Bool.not_true, Bool.false_or] at h2
          exact h2) hv
      simp only at hb
      rw [hb, if_pos ha, hv]
      rfl
    · rw [bindLeaf_skip e env _ tag value (by
        by_cases h1 : tag.Get "env" = ""
        · exact Or.inl h1
        · exact Or.inr (fun h2 => ha ⟨h1, (StringInSlice_iff _ _).2 h2⟩)), if_neg ha]

/-- Binding leaves every tag as it is. -/
theorem plainTags_bound (e : EnvSource) (env : Env) (s : Struct) :
    (e.bound env s).plainTags = s.plainTags := by
  induction s with
  | nil => rfl
  | sub name exported embedded tag inner rest ihi ihr => simp [EnvSource.bound, Struct.plainTags, ihi, ihr]
  | leaf name exported tag value rest ih => simp [EnvSource.bound, Struct.plainTags, ih]

/-- `setDefaults` leaves a struct without `default` tags alone. -/
theorem setDefaults_plain (s : Struct) (h : s.plainTags = true) :
    setDefaults s = (s, none) := by
  induction s with
  | nil => rfl
  | sub name exported embedded tag inner rest ihi ihr =>
    simp only [Struct.plainTags, Bool.and_eq_true] at h
    rw [setDefaults, ihi h.1.2, ihr h.2]
  | leaf name exported tag value rest ih =>
    simp only [Struct.plainTags, Bool.and_eq_true, decide_eq_true_eq] at h
    have hd : ¬ (tag.Get "default" ≠ "" ∧ value.isZero = true) := fun hh => hh.1 h.1.1.1
    simp only [setDefaults, if_neg hd, ih h.2]

/-- `checkRequiredFields` accepts a struct without `required` tags. -/
theorem checkRequiredFields_plain (s : Struct) (h : s.plainTags = true) :
    checkRequiredFields s = none := by
  induction s with
  | nil => rfl
  | sub name exported embedded tag inner rest ihi ihr =>
    simp only [Struct.plainTags, Bool.and_eq_true] at h
    rw [checkRequiredFields, ihi h.1.2, ihr h.2]
  | leaf name exported tag value rest ih =>
    simp only [Struct.plainTags, Bool.and_eq_true, decide_eq_true_eq] at h
    have hd : ¬ (tag.Get "required" ≠ "" ∧ value.isZero = true) := fun hh => hh.1 h.1.1.2
    simp only [checkRequiredFields, if_neg hd, ih h.2]

/-- A top-level field of the fully bound struct. -/
theorem field?_bound (e : EnvSource) (env : Env) (F : String) (s : Struct)
    (exported : Bool) (tag : Tag) (value : Leaf)
    (h : s.field? F = some (exported, tag, value)) :
    (e.bound env s).field? F = some (exported, tag,
      if tag.Get "env" ≠ "" ∧ StringInSlice (tag.Get "env") e.Variables = true then
        (conversion env ⟨[F], tag, value⟩).getD value
      else value) := by
  induction s with
  | nil => simp [Struct.field?] at h
  | sub name x emb t inner rest ihi ihr =>
    simp only [Struct.field?] at h
    by_cases hn : name = F
    · simp [hn] at h
    · rw [if_neg hn] at h
      simp only [EnvSource.bound, Struct.field?, if_neg hn]
      exact ihr h
  | leaf name x t v rest ih =>
    simp only [Struct.field?] at h
    by_cases hn : name = F
    · rw [if_pos hn] at h
      simp only [Option.some.injEq, Prod.mk.injEq] at h
      obtain ⟨rfl, rfl, rfl⟩ := h
      subst hn
      simp [EnvSource.bound, Struct.field?]
    · rw [if_neg hn] at h
      simp only [EnvSource.bound, Struct.field?, if_neg hn]
      exact ih h

/-- An exported top-level field of non-struct kind is in the map under its name. -/
theorem structsMap_lookup (F : String) (s : Struct) (tag : Tag) (value : Leaf)
    (h : s.field? F = some (true, tag, value)) :
    (structsMap s).lookup F = some (.value value) := by
  induction s with
  | nil => simp [Struct.field?] at h
  | sub name x emb t inner rest ihi ihr =>
    simp only [Struct.field?] at h
    by_cases hn : name = F
    · simp [hn] at h
    · rw [if_neg hn] at h
      rw [structsMap]
      cases x with
      | false => exact ihr h
      | true =>
        simp only [if_true]
        cases hm : structsMap inner <;> simp [ConfigMap.lookup, hn, ihr h]
  | leaf name x t v rest ih =>
    simp only [Struct.field?] at h
    by_cases hn : name = F
    · rw [if_pos hn] at h
      simp only [Option.some.injEq, Prod.mk.injEq] at h
      obtain ⟨rfl, rfl, rfl⟩ := h
      simp [structsMap, ConfigMap.lookup, hn]
    · rw [if_neg hn] at h
      rw [structsMap]
      cases x with
      | false => exact ih h
      | true => simp [ConfigMap.lookup, hn, ih h]

/-- The base-10 string of an integer is not empty. -/
theorem decimal_ne_empty (n : Int) : decimal n ≠ "" := by
  intro h
  have hd := congrArg String.data h
  unfold decimal at hd
  by_cases hneg : n < 0
  · rw [if_pos hneg] at hd
    simp at hd
  · rw [if_neg hneg] at hd
    obtain ⟨d, _, tl, htl⟩ := decimalDigits_head n.toNat
    simp [htl] at hd

/-- A variable whose value is a number has a non-empty name. -/
theorem Getenv_name_ne_empty (env : Env) (X : String) (n : Int)
    (h : Getenv env X = decimal n) : X ≠ "" := by
  intro hX
  rw [Getenv, if_pos hX] at h
  exact decimal_ne_empty n h.symm

/-- The tag `env:"X"` under the key `env`. -/
theorem envTag_Get_env (X : String) : (Tag.mk [("env", X)]).Get "env" = X := by
  simp [Tag.Get, List.lookup]

/-- The aggregate is not empty exactly when some `Load` error has an entry. -/
theorem loadErrors_ne_nil_iff {σ ε : Type} (srcs : List (Source σ ε)) (t : σ) :
    loadErrors srcs t ≠ [] ↔ ∃ r ∈ loadResults srcs t, r.entries ≠ [] := by
  unfold loadErrors
  rw [Ne, List.flatMap_eq_nil_iff]
  push_neg
  rfl

/-- When every `Load` error is of a type other than `*multierror.Error`, the aggregate
holds exactly these errors. -/
theorem loadErrors_of_plain {ε : Type} (l : List (LoadError ε))
    (h : ∀ r ∈ l, ∃ err, r = .plain err) :
    (l.flatMap LoadError.entries).map LoadError.plain = l := by
  induction l with
  | nil => rfl
  | cons r rest ih =>
    obtain ⟨err, rfl⟩ := h _ (List.mem_cons_self _ _)
    have := ih (fun r hr => h r (List.mem_cons_of_mem _ hr))
    simp [LoadError.entries, this]

/-- On a target that binds cleanly `Load` returns `nil` and leaves the fully bound
struct. -/
theorem Load_clean (e : EnvSource) (env : Env) (s : Struct)
    (h : e.clean env false s = true) : e.Load env s = (e.bound env s, none) := by
  rw [EnvSource.Load, processEnvTags_clean e env false s h]

/-! ## The claims -/

/-- C1 (evaluation of the code): `EnvSource.Load` never returns an error: it returns
`nil` or panics, and it returns `nil` whenever the traversal `processEnvTags` ends
with a conversion error.  On `exampleTarget` with `PORT=abc` the traversal does return
the `strconv` syntax error for the int field `Server.Port`, and `Load` drops it. -/
theorem Load_drops_parse_error :
    (∀ (e : EnvSource) (env : Env) (s : Struct),
      (e.Load env s).2 = none ∨ ∃ msg, (e.Load env s).2 = some (.panic msg)) ∧
    (∀ (e : EnvSource) (env : Env) (s : Struct) (err : NumError),
      (e.processEnvTags env false s).2 = some (.num err) → (e.Load env s).2 = none) ∧
    exampleTarget.leaves[1]? = some ⟨["Server", "Port"], ⟨[("env", "PORT")]⟩, .int 0⟩ ∧
    "PORT" ∈ exampleSource.Variables ∧
    ParseInt (Getenv badEnv "PORT") = .error ⟨"ParseInt", "abc", .ErrSyntax⟩ ∧
    (exampleSource.processEnvTags badEnv false exampleTarget).2
      = some (.num ⟨"ParseInt", "abc", .ErrSyntax⟩) ∧
    (exampleSource.Load badEnv exampleTarget).2 = none := by
  refine ⟨Load_snd, ?_, by decide, by decide, rfl, by decide, by decide⟩
  intro e env s err h
  apply Load_snd_of_no_panic
  intro msg hm
  rw [h] at hm
  cases hm

/-- C2 (as stated, refuted): on `Port int env:"PORT" default:"8080"`, source `A` writes 5
and succeeds, source `B` (an `EnvSource` reading `PORT=0`), registered after `A`, writes
0 to the same field and succeeds; after `Run`, which returns `nil`, the field holds
8080, not the value written by `B`. -/
theorem last_write_replaced_by_default :
    ((constSource 5).Load portTarget).2 = none ∧
    firstValue ((constSource 5).Load portTarget).1 = some (.int 5) ∧
    ((EnvSource.toSource ⟨["PORT"]⟩ zeroEnv).Load ((constSource 5).Load portTarget).1).2
      = none ∧
    firstValue ((EnvSource.toSource ⟨["PORT"]⟩ zeroEnv).Load
      ((constSource 5).Load portTarget).1).1 = some (.int 0) ∧
    ((((NewMerger portTarget).AddSource (constSource 5)).AddSource
      (EnvSource.toSource ⟨["PORT"]⟩ zeroEnv)).Run setDefaults checkRequiredFields).2
        = none ∧
    firstValue ((((NewMerger portTarget).AddSource (constSource 5)).AddSource
      (EnvSource.toSource ⟨["PORT"]⟩ zeroEnv)).Run setDefaults
        checkRequiredFields).1.TargetConfigStruct = some (.int 8080) := by
  decide

/-- C2 (amended): with `A`, further sources `mid`, `B` and further sources `post`
registered in that order on a merger, the load pass of `Run` is the left-to-right
composition of the `Load` effects in registration order.  A field (read by `get`) to
which `B.Load` writes `vB`, and which no source registered after `B` writes, holds `vB`
when `Run` returns, whatever `A` and the sources before `B` wrote, provided that, when
the load pass collected no error, the default application that `Run` then performs
leaves the field as it is. -/
theorem Run_last_registered_wins {σ ε α : Type} (m : Merger σ ε) (A B : Source σ ε)
    (mid post : List (Source σ ε))
    (setDefaults : σ → σ × Option ε) (checkRequiredFields : σ → Option ε)
    (get : σ → α) (vB : α)
    (hB : get (B.Load (loadAll mid
      (A.Load (loadAll m.Sources m.TargetConfigStruct)).1)).1 = vB)
    (hpost : ∀ s ∈ post, ∀ t, get (s.Load t).1 = get t)
    (hD : loadErrors (registered m A mid B post).Sources m.TargetConfigStruct = [] →
      get (setDefaults (loadAll (registered m A mid B post).Sources
        m.TargetConfigStruct)).1
        = get (loadAll (registered m A mid B post).Sources m.TargetConfigStruct)) :
    (Run.loop (registered m A mid B post).Sources m.TargetConfigStruct none).1
      = loadAll post (B.Load (loadAll mid
          (A.Load (loadAll m.Sources m.TargetConfigStruct)).1)).1 ∧
    get (Run.loop (registered m A mid B post).Sources m.TargetConfigStruct none).1 = vB ∧
    get ((registered m A mid B post).Run setDefaults
      checkRequiredFields).1.TargetConfigStruct = vB := by
  have hall : loadAll (registered m A mid B post).Sources m.TargetConfigStruct
      = loadAll post (B.Load (loadAll mid
          (A.Load (loadAll m.Sources m.TargetConfigStruct)).1)).1 := by
    rw [registered_Sources]
    simp [loadAll, List.foldl_append]
  have hget : get (loadAll (registered m A mid B post).Sources m.TargetConfigStruct)
      = vB := by
    rw [hall, loadAll_frame get post hpost, hB]
  have hT := registered_Target m A mid B post
  refine ⟨by rw [Run_loop_fst, hall], by rw [Run_loop_fst, hget], ?_⟩
  by_cases herr :
      loadErrors (registered m A mid B post).Sources m.TargetConfigStruct = []
  · rw [Run_of_no_errors _ _ _ (by rw [hT]; exact herr)]
    show get (Run.validate setDefaults checkRequiredFields _).1 = vB
    rw [validate_fst, hT, hD herr, hget]
  · rw [Run_of_errors _ _ _ (by rw [hT]; exact herr)]
    show get (loadAll _ _) = vB
    rw [hT, hget]

/-- C2 (amended), at a concrete input: `A` writes 5, a further source writes 6, `B` reads
`PORT=9090`; after `Run` the field holds 9090. -/
theorem Run_last_registered_wins_witness :
    firstValue ((registered (NewMerger portTarget) (constSource 5) [constSource 6]
      (EnvSource.toSource ⟨["PORT"]⟩ portEnv) []).Run setDefaults
        checkRequiredFields).1.TargetConfigStruct = some (.int 9090) :=
  (Run_last_registered_wins (NewMerger portTarget) (constSource 5)
    (EnvSource.toSource ⟨["PORT"]⟩ portEnv) [constSource 6] [] setDefaults
    checkRequiredFields firstValue (some (.int 9090)) (by decide)
    (fun s hs => absurd hs (List.not_mem_nil s)) (fun _ => by decide)).2.2

/-- C3 (as stated, refuted): of the two sources of `flatteningMerger` both fail, the
first with a `*multierror.Error` holding two errors; the aggregate that `Run` returns
holds three errors, not one per failing source, and the error the first `Load`
returned is not among them. -/
theorem aggregate_flattens_multierror :
    loadResults flatteningMerger.Sources flatteningMerger.TargetConfigStruct
      = [.multi [.requiredMissing "User", .requiredMissing "Token"],
          .plain (.num ⟨"ParseInt", "x", .ErrSyntax⟩)] ∧
    (flatteningMerger.Run setDefaults checkRequiredFields).2
      = some (.aggregate [.requiredMissing "User", .requiredMissing "Token",
          .num ⟨"ParseInt", "x", .ErrSyntax⟩]) := by
  decide

/-- C3 (amended): `Run` calls `Load` on every registered source exactly once and in
registration order, whatever the earlier calls returned: with call logging switched on,
the log after the load loop is `0, 1, ..., n-1` and the target is the one the plain
sources produce; the target after the loop is the sequential composition of all the
`Load` effects.  The aggregate holds, for every failing source in registration order,
the error its `Load` returned or, when that is a `*multierror.Error`, the errors it
holds; when the aggregate is not empty `Run` returns it; and when no `Load` error is a
`*multierror.Error` the aggregate holds exactly the `Load` errors, one per failing
source. -/
theorem Run_loads_every_source_once {σ ε : Type} (m : Merger σ ε)
    (setDefaults : σ → σ × Option ε) (checkRequiredFields : σ → Option ε) :
    (Run.loop (loggedFrom 0 m.Sources) (m.TargetConfigStruct, []) none).1
      = (loadAll m.Sources m.TargetConfigStruct, List.range m.Sources.length) ∧
    (Run.loop m.Sources m.TargetConfigStruct none).1
      = m.Sources.foldl (fun t s => (s.Load t).1) m.TargetConfigStruct ∧
    loadErrors m.Sources m.TargetConfigStruct
      = (loadResults m.Sources m.TargetConfigStruct).flatMap LoadError.entries ∧
    (loadErrors m.Sources m.TargetConfigStruct ≠ [] →
      (m.Run setDefaults checkRequiredFields).2
        = some (.aggregate (loadErrors m.Sources m.TargetConfigStruct))) ∧
    ((∀ r ∈ loadResults m.Sources m.TargetConfigStruct, ∃ err, r = .plain err) →
      (loadErrors m.Sources m.TargetConfigStruct).map LoadError.plain
        = loadResults m.Sources m.TargetConfigStruct) := by
  refine ⟨?_, ?_, rfl, ?_, ?_⟩
  · rw [Run_loop_logged, List.range_eq_range']
    simp
  · rw [Run_loop_fst]
    rfl
  · intro h
    rw [Run_of_errors m setDefaults checkRequiredFields h]
  · intro h
    exact loadErrors_of_plain _ h

/-- C3 (amended), at a concrete input: of three sources the first and the third fail;
`Run` returns both errors in registration order. -/
theorem Run_loads_every_source_once_witness :
    (failingMerger.Run setDefaults checkRequiredFields).2
      = some (.aggregate [.requiredMissing "Token", .num ⟨"ParseInt", "x", .ErrSyntax⟩]) :=
  (Run_loads_every_source_once failingMerger setDefaults checkRequiredFields).2.2.2.1
    (by decide)

/-- C4 (as stated, refuted): the `Load` of the only source of `emptyAggregateMerger`
returns a non-`nil` error, an empty `*multierror.Error`; `Run` nevertheless applies the
defaults (`Port` goes from 0 to 8080), checks the required fields and returns `nil`. -/
theorem empty_aggregate_runs_validation :
    loadResults emptyAggregateMerger.Sources emptyAggregateMerger.TargetConfigStruct
      = [.multi []] ∧
    firstValue (loadAll emptyAggregateMerger.Sources
      emptyAggregateMerger.TargetConfigStruct) = some (.int 0) ∧
    (emptyAggregateMerger.Run setDefaults checkRequiredFields).2 = none ∧
    firstValue (emptyAggregateMerger.Run setDefaults
      checkRequiredFields).1.TargetConfigStruct = some (.int 8080) := by
  decide

/-- C4 (amended): when the aggregate of the load pass is not empty, which is the case
exactly when some `Load` returned an error that is not an empty `*multierror.Error`,
`Run` returns the aggregate and the target is exactly what the `Load` calls left,
whatever `setDefaults` and `checkRequiredFields` would do (neither is applied); when the
aggregate is empty, `Run` applies `setDefaults`, returns its error if it has one, and
otherwise returns what `checkRequiredFields` says about the target with defaults
applied. -/
theorem Run_validates_only_after_clean_load {σ ε : Type} (m : Merger σ ε)
    (setDefaults : σ → σ × Option ε) (checkRequiredFields : σ → Option ε) :
    (loadErrors m.Sources m.TargetConfigStruct ≠ [] ↔
      ∃ r ∈ loadResults m.Sources m.TargetConfigStruct, r.entries ≠ []) ∧
    (loadErrors m.Sources m.TargetConfigStruct ≠ [] →
      m.Run setDefaults checkRequiredFields =
        ({ m with TargetConfigStruct := loadAll m.Sources m.TargetConfigStruct },
          some (.aggregate (loadErrors m.Sources m.TargetConfigStruct)))) ∧
    (loadErrors m.Sources m.TargetConfigStruct = [] →
      m.Run setDefaults checkRequiredFields =
        match setDefaults (loadAll m.Sources m.TargetConfigStruct) with
        | (t1, some err) => ({ m with TargetConfigStruct := t1 }, some (.plain err))
        | (t1, none) =>
          ({ m with TargetConfigStruct := t1 }, (checkRequiredFields t1).map .plain)) := by
  refine ⟨loadErrors_ne_nil_iff _ _, Run_of_errors m setDefaults checkRequiredFields, ?_⟩
  intro h
  rw [Run_of_no_errors m setDefaults checkRequiredFields h, Run.validate]
  cases hd : setDefaults (loadAll m.Sources m.TargetConfigStruct) with
  | mk t1 r =>
    cases r with
    | some err => rfl
    | none => cases hc : checkRequiredFields t1 <;> simp [hc]

/-- C4 (amended), at a concrete input: after a load pass with a non-empty aggregate the
field `Port` holds the 0 that the second source wrote, although it carries
`default:"8080"`. -/
theorem Run_validates_only_after_clean_load_witness :
    (failingMerger.Run setDefaults checkRequiredFields).1.TargetConfigStruct
      = .leaf "Port" true ⟨[("env", "PORT"), ("default", "8080")]⟩ (.int 0) .nil := by
  rw [(Run_validates_only_after_clean_load failingMerger setDefaults
    checkRequiredFields).2.1 (by decide)]
  decide

/-- C5: a non-struct field, at any depth (`f.path` is the chain of field names leading to
it, `i` its position in traversal order), whose `env` tag is empty or absent, or is not
among the source's `Variables`, has the same value after `EnvSource.Load` (and after
`processEnvTags`) as before; and passing over it yields no error: the traversal
continues with the remaining fields, whose outcome is the outcome of the whole. -/
theorem Load_leaves_unbound_field_unchanged (e : EnvSource) (env : Env) (s : Struct)
    (i : Nat) (f : FieldAt) (hleaf : s.leaves[i]? = some f)
    (hskip : f.tag.Get "env" = "" ∨ f.tag.Get "env" ∉ e.Variables) :
    (e.Load env s).1.leaves[i]? = some f ∧
    (e.processEnvTags env false s).1.leaves[i]? = some f ∧
    ∀ (ro : Bool) (name : String) (exported : Bool) (rest : Struct),
      e.processEnvTags env ro (.leaf name exported f.tag f.value rest) =
        (.leaf name exported f.tag f.value (e.processEnvTags env ro rest).1,
          (e.processEnvTags env ro rest).2) := by
  have h1 : (e.processEnvTags env false s).1.leaves[i]? = some f := by
    obtain ⟨b, hc, _⟩ := cells_of_leaf false s i f hleaf
    rw [processEnvTags_leaves_fst]
    exact bindLeaves_frame e env (s.cells false) i (f, b) hc
      (bindLeaf_skip e env b f.tag f.value hskip)
  refine ⟨by rw [Load_fst]; exact h1, h1, ?_⟩
  intro ro name exported rest
  rw [processEnvTags_leaf, bindLeaf_skip e env _ f.tag f.value hskip]

/-- C5, at a concrete input: `Server.Name` of `exampleTarget` has no `env` tag and keeps
its value. -/
theorem Load_leaves_unbound_field_unchanged_witness :
    (exampleSource.Load goodEnv exampleTarget).1.leaves[2]?
      = some ⟨["Server", "Name"], ⟨[]⟩, .str "main"⟩ :=
  (Load_leaves_unbound_field_unchanged exampleSource goodEnv exampleTarget 2
    ⟨["Server", "Name"], ⟨[]⟩, .str "main"⟩ (by decide) (Or.inl (by decide))).1

/-- C6 (as stated, refuted): in `secretTarget` the string field `token` carries an `env`
tag that is in `Variables`, and there is no int or bool field whose variable could fail
to parse; the traversal panics in `SetString` on the unexported field and `token` is
not assigned the value of its variable. -/
theorem unexported_field_is_not_bound :
    secretTarget.leaves[1]? = some ⟨["token"], ⟨[("env", "TOKEN")]⟩, .str ""⟩ ∧
    "TOKEN" ∈ secretSource.Variables ∧
    (secretTarget.leaves.all fun f => (conversion secretEnv f).isSome) = true ∧
    conversion secretEnv ⟨["token"], ⟨[("env", "TOKEN")]⟩, .str ""⟩ = some (.str "s3cret") ∧
    (secretSource.processEnvTags secretEnv false secretTarget).2
      = some (.panic
          "reflect: reflect.Value.SetString using value obtained using unexported field") ∧
    (secretSource.processEnvTags secretEnv false secretTarget).1.leaves[1]?
      = some ⟨["token"], ⟨[("env", "TOKEN")]⟩, .str ""⟩ := by
  decide

/-- C6 (amended): for a target of any nesting depth in which every string, int or bool
leaf whose `env` tag is non-empty and among `Variables` can be set (it is exported, and
every struct-typed field on the way to it is exported or embedded), and an environment
in which every authorized field's variable converts to the field's kind,
`processEnvTags` returns, without error or panic, and every leaf at every depth whose
`env` tag is non-empty and among `Variables` holds the conversion of its variable's
value afterwards.  Struct-typed fields are entered whatever their own tag is: the
leaves of `s` include those of every nested struct. -/
theorem processEnvTags_binds_every_leaf (e : EnvSource) (env : Env) (s : Struct)
    (hparse : ∀ f ∈ s.leaves, f.tag.Get "env" ≠ "" → f.tag.Get "env" ∈ e.Variables →
      (conversion env f).isSome = true)
    (hset : ∀ (i : Nat) (f : FieldAt), s.leaves[i]? = some f →
      f.tag.Get "env" ≠ "" → f.tag.Get "env" ∈ e.Variables →
      f.value.isBindable = true → (s.settable false)[i]? = some true) :
    (e.processEnvTags env false s).2 = none ∧
    ∀ (i : Nat) (f : FieldAt), s.leaves[i]? = some f →
      f.tag.Get "env" ≠ "" → f.tag.Get "env" ∈ e.Variables →
      ∃ v, conversion env f = some v ∧
        (e.processEnvTags env false s).1.leaves[i]? = some { f with value := v } := by
  have hcell : ∀ (i : Nat) (c : FieldAt × Bool), (s.cells false)[i]? = some c →
      c.1.tag.Get "env" ≠ "" → c.1.tag.Get "env" ∈ e.Variables →
      c.1.value.isBindable = true → c.2 = true := by
    intro i c hc h1 h2 hb
    obtain ⟨hl, hs⟩ := leaf_of_cell false s i c hc
    have := hset i c.1 hl h1 h2 hb
    rw [hs] at this
    exact Option.some.inj this
  have hok : ∀ c ∈ s.cells false, ∃ v, e.bindLeaf env c.2 c.1.tag c.1.value = .ok v := by
    intro c hc
    obtain ⟨i, hi⟩ := List.getElem?_of_mem hc
    exact bindLeaf_ok_of e env c
      (hparse c.1 (List.getElem?_mem (leaf_of_cell false s i c hi).1))
      (hcell i c hi)
  obtain ⟨hnone, hall⟩ := bindLeaves_all_ok e env (s.cells false) hok
  rw [processEnvTags_leaves_snd, processEnvTags_leaves_fst]
  refine ⟨hnone, ?_⟩
  intro i f hf h1 h2
  obtain ⟨b, hc, _⟩ := cells_of_leaf false s i f hf
  obtain ⟨v, hv, hres⟩ := hall i (f, b) hc
  obtain ⟨w, hw⟩ := Option.isSome_iff_exists.1 (hparse f (List.getElem?_mem hf) h1 h2)
  have hvw := bindLeaf_of_conversion e env b f w h1 h2 (hcell i (f, b) hc h1 h2) hw
  simp only at hv
  rw [hv] at hvw
  cases hvw
  exact ⟨v, hw, hres⟩

/-- C6 (amended), at a concrete input: with `PORT=8080` the nested int field
`Server.Port` of `exampleTarget` is reached and holds 8080. -/
theorem processEnvTags_binds_every_leaf_witness :
    (exampleSource.processEnvTags goodEnv false exampleTarget).2 = none ∧
    (exampleSource.processEnvTags goodEnv false exampleTarget).1.leaves[1]?
      = some ⟨["Server", "Port"], ⟨[("env", "PORT")]⟩, .int 8080⟩ := by
  have h := processEnvTags_binds_every_leaf exampleSource goodEnv exampleTarget
    (by decide)
    (by
      intro i f hf _ _ _
      have hi : i < 4 := by
        have := (List.getElem?_eq_some.1 hf).1
        simpa [exampleTarget, Struct.leaves] using this
      interval_cases i <;> decide)
  obtain ⟨v, hv, hres⟩ := h.2 1 ⟨["Server", "Port"], ⟨[("env", "PORT")]⟩, .int 0⟩
    (by decide) (by decide) (by decide)
  have hc : conversion goodEnv ⟨["Server", "Port"], ⟨[("env", "PORT")]⟩, .int 0⟩
      = some (.int 8080) := by decide
  rw [hc] at hv
  cases hv
  exact ⟨h.1, hres⟩

/-- C7 (as stated, refuted): with `PORT=8080` and `Variables = [WORKERS, PORT]`, the
target `workersTarget` has the int field `Port` tagged `env:"PORT"` only; `WORKERS` is
unset, the traversal stops at the field `Workers` declared before `Port`, `Run`
returns `nil`, and `Port` is 0 in the target and in `GetFinalConfig`.  With the
unexported field `port` of `lowerTarget`, `Load` panics and the field stays 0.  With
the required field `Token` of `requiredTarget` next to `Port`, `Run` returns the
required-field error. -/
theorem roundTrip_needs_clean_target :
    "PORT" ∈ ["WORKERS", "PORT"] ∧ Getenv goodEnv "PORT" = decimal 8080 ∧
    workersTarget.field? "Port" = some (true, ⟨[("env", "PORT")]⟩, .int 0) ∧
    ((roundTripMerger workersTarget ["WORKERS", "PORT"] goodEnv).Run setDefaults
      checkRequiredFields).2 = none ∧
    ((roundTripMerger workersTarget ["WORKERS", "PORT"] goodEnv).Run setDefaults
      checkRequiredFields).1.TargetConfigStruct.field? "Port"
        = some (true, ⟨[("env", "PORT")]⟩, .int 0) ∧
    ((roundTripMerger workersTarget ["WORKERS", "PORT"] goodEnv).Run setDefaults
      checkRequiredFields).1.GetFinalConfig.lookup "Port" = some (.value (.int 0)) ∧
    EnvSource.Load ⟨["PORT"]⟩ goodEnv lowerTarget
      = (lowerTarget, some (.panic
          "reflect: reflect.Value.SetInt using value obtained using unexported field")) ∧
    ((roundTripMerger requiredTarget ["PORT"] goodEnv).Run setDefaults
      checkRequiredFields).2 = some (.plain (.requiredMissing "Token")) := by
  decide

/-- C7 (amended): for every `n` in the signed 64-bit range, with one registered
`EnvSource` whose `Variables` contain `X`, the environment value of `X` equal to the
base-10 string of `n`, and a target struct that has a top-level exported int field `F`
tagged `env:"X"` and nothing else, in which every field the source is authorized for
can be bound (its variable converts to its kind and the field can be set) and no field
carries a `default`, `required` or `structs` tag: `Run` returns `nil`, `F` equals `n`
afterwards, and `GetFinalConfig` has `n` under the name of `F`. -/
theorem Run_roundTrip (n : Int) (hlo : -(2 ^ 63) ≤ n) (hhi : n < 2 ^ 63) (F X : String)
    (old : Int) (vars : List String) (hX : X ∈ vars) (env : Env)
    (henv : Getenv env X = decimal n) (s : Struct)
    (hF : s.field? F = some (true, ⟨[("env", X)]⟩, .int old))
    (hclean : EnvSource.clean { Variables := vars } env false s = true)
    (hplain : s.plainTags = true) :
    ((roundTripMerger s vars env).Run setDefaults checkRequiredFields).2 = none ∧
    ((roundTripMerger s vars env).Run setDefaults
      checkRequiredFields).1.TargetConfigStruct.field? F
        = some (true, ⟨[("env", X)]⟩, .int n) ∧
    ((roundTripMerger s vars env).Run setDefaults
      checkRequiredFields).1.GetFinalConfig.lookup F = some (.value (.int n)) := by
  have hL := Load_clean { Variables := vars } env s hclean
  have hne := Getenv_name_ne_empty env X n henv
  have hplain' : (EnvSource.bound { Variables := vars } env s).plainTags = true := by
    rw [plainTags_bound]; exact hplain
  have hrun : (roundTripMerger s vars env).Run setDefaults checkRequiredFields =
      ({ roundTripMerger s vars env with
          TargetConfigStruct := EnvSource.bound { Variables := vars } env s }, none) := by
    have hnoerr : loadErrors (roundTripMerger s vars env).Sources
        (roundTripMerger s vars env).TargetConfigStruct = [] := by
      simp [roundTripMerger, NewMerger, Merger.AddSource, loadErrors, loadResults,
        EnvSource.toSource, hL]
    have hall : loadAll (roundTripMerger s vars env).Sources
        (roundTripMerger s vars env).TargetConfigStruct
          = EnvSource.bound { Variables := vars } env s := by
      simp [roundTripMerger, NewMerger, Merger.AddSource, loadAll, EnvSource.toSource, hL]
    rw [Run_of_no_errors _ _ _ hnoerr, hall, Run.validate, setDefaults_plain _ hplain']
    simp only [checkRequiredFields_plain _ hplain']
  have hfield : (EnvSource.bound { Variables := vars } env s).field? F
      = some (true, ⟨[("env", X)]⟩, .int n) := by
    rw [field?_bound _ env F s true ⟨[("env", X)]⟩ (.int old) hF, envTag_Get_env]
    have ha : X ≠ "" ∧ StringInSlice X (EnvSource.mk vars).Variables = true :=
      ⟨hne, (StringInSlice_iff _ _).2 hX⟩
    rw [if_pos ha]
    simp [conversion, envTag_Get_env, henv, ParseInt_decimal n hlo hhi]
  rw [hrun]
  exact ⟨rfl, hfield, structsMap_lookup F _ _ _ hfield⟩

/-- C7 (amended), at the input of the scenario, with a second field next to `Port`:
`PORT=8080` gives `Port = 8080`. -/
theorem Run_roundTrip_witness :
    ((roundTripMerger workersTarget ["PORT"] goodEnv).Run setDefaults
      checkRequiredFields).2 = none ∧
    ((roundTripMerger workersTarget ["PORT"] goodEnv).Run setDefaults
      checkRequiredFields).1.TargetConfigStruct.field? "Port"
        = some (true, ⟨[("env", "PORT")]⟩, .int 8080) ∧
    ((roundTripMerger workersTarget ["PORT"] goodEnv).Run setDefaults
      checkRequiredFields).1.GetFinalConfig.lookup "Port" = some (.value (.int 8080)) :=
  Run_roundTrip 8080 (by decide) (by decide) "Port" "PORT" 0 ["PORT"] (by decide) goodEnv
    (by decide) workersTarget (by decide) (by decide) (by decide)

/-- C8 (as stated, refuted): in `exampleTarget` with `PORT=abc` the int field
`Server.Port` is authorized and malformed; `Debug`, declared after it in the enclosing
struct, is authorized and its value `true` is well-formed, yet after the same `Load`
pass `Debug` still holds `false`. -/
theorem malformed_int_blocks_later_fields :
    exampleTarget.leaves[1]? = some ⟨["Server", "Port"], ⟨[("env", "PORT")]⟩, .int 0⟩ ∧
    conversion badEnv ⟨["Server", "Port"], ⟨[("env", "PORT")]⟩, .int 0⟩ = none ∧
    exampleTarget.leaves[3]? = some ⟨["Debug"], ⟨[("env", "DEBUG")]⟩, .bool false⟩ ∧
    "DEBUG" ∈ exampleSource.Variables ∧
    conversion badEnv ⟨["Debug"], ⟨[("env", "DEBUG")]⟩, .bool false⟩ = some (.bool true) ∧
    (exampleSource.Load badEnv exampleTarget).1.leaves[3]?
      = some ⟨["Debug"], ⟨[("env", "DEBUG")]⟩, .bool false⟩ := by
  decide

/-- C8 (amended): when the authorized int field `G`, the `g`-th leaf in traversal order,
has a malformed value and every authorized field met before it converts and, when it
is a string, int or bool, can be set (it is exported, and every struct-typed field on
the way to it is exported or embedded), then `processEnvTags` returns the parse error
of `G`, every
authorized field met before `G` (in the same struct, in a nested or in an enclosing
one) holds the conversion of its variable's value after the `Load` pass, and `G` and
every field met after it are left as they were. -/
theorem Load_binds_fields_before_malformed (e : EnvSource) (env : Env) (s : Struct)
    (g : Nat) (G : FieldAt) (old : Int) (err : NumError)
    (hG : s.leaves[g]? = some G) (hint : G.value = .int old)
    (htag : G.tag.Get "env" ≠ "") (hvar : G.tag.Get "env" ∈ e.Variables)
    (hbad : ParseInt (Getenv env (G.tag.Get "env")) = .error err)
    (hbefore : ∀ (i : Nat) (f : FieldAt), i < g → s.leaves[i]? = some f →
      f.tag.Get "env" ≠ "" → f.tag.Get "env" ∈ e.Variables →
      (conversion env f).isSome = true)
    (hset : ∀ (i : Nat) (f : FieldAt), i < g → s.leaves[i]? = some f →
      f.tag.Get "env" ≠ "" → f.tag.Get "env" ∈ e.Variables →
      f.value.isBindable = true → (s.settable false)[i]? = some true) :
    (e.processEnvTags env false s).2 = some (.num err) ∧
    (∀ (i : Nat) (f : FieldAt), i < g → s.leaves[i]? = some f →
      f.tag.Get "env" ≠ "" → f.tag.Get "env" ∈ e.Variables →
      ∃ v, conversion env f = some v ∧
        (e.Load env s).1.leaves[i]? = some { f with value := v }) ∧
    (∀ (i : Nat), g ≤ i → (e.Load env s).1.leaves[i]? = s.leaves[i]?) := by
  obtain ⟨bG, hGc, _⟩ := cells_of_leaf false s g G hG
  have hGerr : e.bindLeaf env bG G.tag G.value = .error (.num err) := by
    rw [hint]
    exact bindLeaf_int_error e env bG G.tag old err htag hvar hbad
  have hcell : ∀ (i : Nat) (c : FieldAt × Bool), i < g → (s.cells false)[i]? = some c →
      c.1.tag.Get "env" ≠ "" → c.1.tag.Get "env" ∈ e.Variables →
      c.1.value.isBindable = true → c.2 = true := by
    intro i c hi hc h1 h2 hb
    obtain ⟨hl, hs⟩ := leaf_of_cell false s i c hc
    have := hset i c.1 hi hl h1 h2 hb
    rw [hs] at this
    exact Option.some.inj this
  have hok : ∀ (i : Nat) (c : FieldAt × Bool), i < g → (s.cells false)[i]? = some c →
      ∃ v, e.bindLeaf env c.2 c.1.tag c.1.value = .ok v := by
    intro i c hi hc
    exact bindLeaf_ok_of e env c
      (hbefore i c.1 hi (leaf_of_cell false s i c hc).1) (hcell i c hi hc)
  obtain ⟨herr, hpre, hpost⟩ :=
    bindLeaves_first_error e env (s.cells false) g (G, bG) (.num err) hGc hGerr hok
  have hL : (e.Load env s).1.leaves = (e.bindLeaves env (s.cells false)).1 := by
    rw [Load_fst, processEnvTags_leaves_fst]
  rw [processEnvTags_leaves_snd, hL]
  refine ⟨herr, ?_, ?_⟩
  · intro i f hi hf h1 h2
    obtain ⟨b, hc, _⟩ := cells_of_leaf false s i f hf
    obtain ⟨v, hv, hres⟩ := hpre i (f, b) hi hc
    obtain ⟨w, hw⟩ := Option.isSome_iff_exists.1 (hbefore i f hi hf h1 h2)
    have hvw := bindLeaf_of_conversion e env b f w h1 h2 (hcell i (f, b) hi hc h1 h2) hw
    simp only at hv
    rw [hv] at hvw
    cases hvw
    exact ⟨v, hw, hres⟩
  · intro i hi
    rw [hpost i hi, cells_map_fst]

/-- C8 (amended), at a concrete input: with `PORT=abc`, `Host` (met before
`Server.Port`) is bound to `localhost`, while `Server.Port` and the fields after it keep
their values. -/
theorem Load_binds_fields_before_malformed_witness :
    (exampleSource.processEnvTags badEnv false exampleTarget).2
      = some (.num ⟨"ParseInt", "abc", .ErrSyntax⟩) ∧
    (exampleSource.Load badEnv exampleTarget).1.leaves[0]?
      = some ⟨["Host"], ⟨[("env", "HOST")]⟩, .str "localhost"⟩ ∧
    (exampleSource.Load badEnv exampleTarget).1.leaves[3]? = exampleTarget.leaves[3]? := by
  have h0 : exampleTarget.leaves[0]? = some ⟨["Host"], ⟨[("env", "HOST")]⟩, .str ""⟩ := by
    decide
  have h := Load_binds_fields_before_malformed exampleSource badEnv exampleTarget 1
    ⟨["Server", "Port"], ⟨[("env", "PORT")]⟩, .int 0⟩ 0 ⟨"ParseInt", "abc", .ErrSyntax⟩
    (by decide) rfl (by decide) (by decide) rfl
    (by
      intro i f hi hf _ _
      obtain rfl : i = 0 := by omega
      rw [h0] at hf
      cases hf
      decide)
    (by
      intro i f hi _ _ _ _
      obtain rfl : i = 0 := by omega
      decide)
  obtain ⟨v, hv, hres⟩ := h.2.1 0 ⟨["Host"], ⟨[("env", "HOST")]⟩, .str ""⟩
    (by decide) (by decide) (by decide) (by decide)
  have hc : conversion badEnv ⟨["Host"], ⟨[("env", "HOST")]⟩, .str ""⟩
      = some (.str "localhost") := by decide
  rw [hc] at hv
  cases hv
  exact ⟨h.1, hres, h.2.2 3 (by decide)⟩

/-- C9 (as stated, refuted): with two registered sources, `RunWatch` starts the watch
task of the first source (event 1) before it calls `Load` on the second (event 2). -/
theorem RunWatch_not_phase_separated :
    ¬ phaseSeparated
      (((NewMerger exampleTarget).AddSource (exampleSource.toSource goodEnv)).AddSource
        (exampleSource.toSource goodEnv)).RunWatch.2.1 := by
  intro h
  have := h 1 2 0 1 (by decide) (by decide)
  omega

/-- C9 (amended): `RunWatch` loads the sources one after the other in registration
order and starts the watch task of each source right after that source's own `Load`
has returned, before the `Load` of the next one; the load pass has the effect and the
errors of the load pass of `Run`; when the load pass fails (its aggregate is not
empty), `RunWatch` returns the aggregate that `Run` returns, and otherwise goes on to
wait for the stop request. -/
theorem RunWatch_interleaves_load_and_watch {σ ε : Type} (m : Merger σ ε)
    (setDefaults : σ → σ × Option ε) (checkRequiredFields : σ → Option ε) :
    m.RunWatch.2.1
      = (List.range m.Sources.length).flatMap (fun i => [.load i, .watch i]) ∧
    m.RunWatch.1.TargetConfigStruct = (Run.loop m.Sources m.TargetConfigStruct none).1 ∧
    (loadErrors m.Sources m.TargetConfigStruct ≠ [] →
      m.RunWatch.2.2 = .returned (loadErrors m.Sources m.TargetConfigStruct) ∧
      (m.Run setDefaults checkRequiredFields).2
        = some (.aggregate (loadErrors m.Sources m.TargetConfigStruct))) ∧
    (loadErrors m.Sources m.TargetConfigStruct = [] →
      m.RunWatch.2.2 = .awaitingStop) := by
  by_cases herr : loadErrors m.Sources m.TargetConfigStruct = []
  · have hw : m.RunWatch = (⟨m.Sources, loadAll m.Sources m.TargetConfigStruct⟩,
        (List.range m.Sources.length).flatMap (fun i => [.load i, .watch i]),
        .awaitingStop) := by
      rw [Merger.RunWatch, RunWatch_loop_eq]
      rcases Run_loop_of_no_errors _ _ herr with h1 | h1 <;>
        rw [h1, List.range_eq_range'] <;> simp
    rw [hw, Run_loop_fst]
    exact ⟨rfl, rfl, fun h => absurd herr h, fun _ => rfl⟩
  · have hlen : (loadErrors m.Sources m.TargetConfigStruct).length > 0 :=
      List.length_pos.2 herr
    have hw : m.RunWatch = (⟨m.Sources, loadAll m.Sources m.TargetConfigStruct⟩,
        (List.range m.Sources.length).flatMap (fun i => [.load i, .watch i]),
        .returned (loadErrors m.Sources m.TargetConfigStruct)) := by
      rw [Merger.RunWatch, RunWatch_loop_eq, Run_loop_of_errors _ _ herr,
        List.range_eq_range']
      simp [hlen]
    rw [hw, Run_loop_fst, Run_of_errors m setDefaults checkRequiredFields herr]
    exact ⟨rfl, rfl, fun _ => ⟨rfl, rfl⟩, fun h => absurd h herr⟩

/-- C9 (amended), at a concrete input: three sources, two of which fail. -/
theorem RunWatch_interleaves_load_and_watch_witness :
    failingMerger.RunWatch.2.1
      = [.load 0, .watch 0, .load 1, .watch 1, .load 2, .watch 2] ∧
    failingMerger.RunWatch.2.2
      = .returned [.requiredMissing "Token", .num ⟨"ParseInt", "x", .ErrSyntax⟩] :=
  have h := RunWatch_interleaves_load_and_watch failingMerger setDefaults
    checkRequiredFields
  ⟨h.1, (h.2.2.1 (by decide)).1⟩

/-- C10 (evaluation of the code): in a watch session the counter of the wait group is
zero after any sequence of moves, for any number of sources; and with two `EnvSource`s
the moves "stop request received, signal delivered to task 0, signal delivered to
task 1, `wg.Wait()` returns" lead to a state in which `RunWatch` has returned while
neither watch task has returned from `Watch`. -/
theorem RunWatch_returns_before_tasks_exit :
    (∀ (n : Nat) (sched : List Action) (s : Session),
      (Session.start n).run sched = some s → s.counter = 0) ∧
    (Session.start 2).run [.stop, .deliver, .deliver, .passBarrier]
      = some { main := .returned, tasks := [.signalled, .signalled], counter := 0 } := by
  refine ⟨?_, by decide⟩
  intro n sched s h
  rw [run_counter _ _ _ h]
  rfl

end ConfigMerger
